import Mathlib

/-!
Verification development for the Minecraft-Wiki page-content extraction
pipeline (`PageContentParser` in the repository source).  The markup tree
adapter (cheerio) is an external dependency boundary: markup is modelled as
an already-loaded tree of element and text nodes, and every pipeline stage
is translated from the source as a pure transformation of such trees.
-/

namespace MCWiki

/-- A loaded markup tree node: either a text node or an element with a tag
name, an attribute list and children.  This is the tree the adapter hands
to the parser. -/
inductive Node where
  | text (s : String)
  | elem (tag : String) (attrs : List (String × String)) (children : List Node)
deriving Repr, Inhabited

mutual

def beqN : Node → Node → Bool
  | .text s, .text t => s = t
  | .elem t1 a1 c1, .elem t2 a2 c2 => t1 = t2 && a1 = a2 && beqF c1 c2
  | _, _ => false

def beqF : List Node → List Node → Bool
  | [], [] => true
  | x :: xs, y :: ys => beqN x y && beqF xs ys
  | _, _ => false

end

mutual

theorem beqN_iff : ∀ a b : Node, beqN a b = true ↔ a = b
  | .text s, .text t => by simp [beqN]
  | .text s, .elem t2 a2 c2 => by simp [beqN]
  | .elem t1 a1 c1, .text t => by simp [beqN]
  | .elem t1 a1 c1, .elem t2 a2 c2 => by
    simp [beqN, beqF_iff c1 c2, and_assoc]

theorem beqF_iff : ∀ l m : List Node, beqF l m = true ↔ l = m
  | [], [] => by simp [beqF]
  | [], y :: ys => by simp [beqF]
  | x :: xs, [] => by simp [beqF]
  | x :: xs, y :: ys => by
    simp [beqF, beqN_iff x y, beqF_iff xs ys]

end

instance : DecidableEq Node := fun a b => decidable_of_iff _ (beqN_iff a b)

/-- Whitespace characters (the ASCII part of the JS `\s` class, which is all
that occurs in the markup handled here). -/
def isWsChar (c : Char) : Bool :=
  c = ' ' || c = '\t' || c = '\n' || c = '\r' || c = '\x0b' || c = '\x0c'

/-- Attribute lookup by name (first binding wins, as in a DOM attribute map). -/
def getAttr (attrs : List (String × String)) (name : String) : Option String :=
  (attrs.find? (fun p => p.1 = name)).map (fun p => p.2)

/-- Attribute update: replace the existing binding in place, or append a new
one, as the adapter's `attr(name, value)` does. -/
def setAttr : List (String × String) → String → String → List (String × String)
  | [], name, v => [(name, v)]
  | p :: r, name, v => if p.1 = name then (name, v) :: r else p :: setAttr r name v

/-- Remove every attribute whose name is in the given list
(`removeAttr('style border cellpadding cellspacing')` splits on spaces and
removes each name). -/
def dropAttrs (attrs : List (String × String)) (names : List String) : List (String × String) :=
  attrs.filter (fun p => ¬ names.contains p.1)

/-- Split a character list into maximal whitespace-free tokens. -/
def tokAux (cur : List Char) : List Char → List (List Char)
  | [] => if cur = [] then [] else [cur.reverse]
  | c :: r =>
    if isWsChar c then
      if cur = [] then tokAux [] r else cur.reverse :: tokAux [] r
    else
      tokAux (c :: cur) r

def tokenizeL (l : List Char) : List (List Char) := tokAux [] l

/-- The whitespace-separated tokens of a class attribute value. -/
def classTokens (s : String) : List String := (tokenizeL s.data).map (fun l => ⟨l⟩)

/-- Trim leading and trailing whitespace (JS `String.prototype.trim`). -/
def trimL (l : List Char) : List Char :=
  ((l.dropWhile isWsChar).reverse.dropWhile isWsChar).reverse

def trimS (s : String) : String := ⟨trimL s.data⟩

/-- `String.prototype.startsWith`. -/
def startsWithS (s pre : String) : Bool := pre.data.isPrefixOf s.data

/-- JS `split(' ')`: split on single space characters, keeping empty
segments. -/
def splitSpAux (cur : List Char) : List Char → List (List Char)
  | [] => [cur.reverse]
  | c :: r => if c = ' ' then cur.reverse :: splitSpAux [] r else splitSpAux (c :: cur) r

def splitOnSpace (s : String) : List String := (splitSpAux [] s.data).map (fun l => ⟨l⟩)

def Node.attr : Node → String → Option String
  | .text _, _ => none
  | .elem _ a _, n => getAttr a n

def Node.children : Node → List Node
  | .text _ => []
  | .elem _ _ cs => cs

def Node.tagIs : Node → String → Bool
  | .elem tg _ _, t => tg = t
  | _, _ => false

/-- Token-wise class membership test (`hasClass`). -/
def hasClassA (attrs : List (String × String)) (c : String) : Bool :=
  match getAttr attrs "class" with
  | some v => (classTokens v).contains c
  | none => false

def Node.hasCls : Node → String → Bool
  | .text _, _ => false
  | .elem _ a _, c => hasClassA a c

def Node.idIs (n : Node) (i : String) : Bool := n.attr "id" = some i

/-- The adapter's `addClass`: pad the existing class string with spaces,
append the new class, and trim. -/
def addClassA (attrs : List (String × String)) (c : String) : List (String × String) :=
  match getAttr attrs "class" with
  | none => setAttr attrs "class" c
  | some v =>
    if v = "" then setAttr attrs "class" c
    else setAttr attrs "class" (trimS (" " ++ v ++ " " ++ c ++ " "))

/-- Simple (intrinsic) CSS selectors used by the parser: tag, class, id and
tag-with-attribute selectors. -/
inductive SSel where
  | tagS (t : String)
  | clsS (c : String)
  | idS (i : String)
  | tagAttrS (t a : String)
deriving Repr, DecidableEq

def matchS : SSel → Node → Bool
  | .tagS t, n => n.tagIs t
  | .clsS c, n => n.hasCls c
  | .idS i, n => n.idIs i
  | .tagAttrS t a, n => n.tagIs t && (n.attr a).isSome

/-- Removal-list selectors: simple, descendant (`anc tgt`) and adjacent
sibling (`prev + tgt`) combinators are the three shapes the configured
removal list uses. -/
inductive RSel where
  | simple (s : SSel)
  | desc (anc tgt : SSel)
  | adj (prev tgt : SSel)
deriving Repr, DecidableEq

mutual

/-- Collect, in document (depth-first, node before children) order, every
node of the tree satisfying `p`. -/
def findAllN (p : Node → Bool) : Node → List Node
  | .text s => if p (.text s) then [.text s] else []
  | .elem t a cs =>
    (if p (.elem t a cs) then [.elem t a cs] else []) ++ findAllF p cs

def findAllF (p : Node → Bool) : List Node → List Node
  | [] => []
  | c :: cs => findAllN p c ++ findAllF p cs

end

mutual

/-- Collect every node satisfying `des` that has a strict ancestor
satisfying `anc`; `inAnc` records whether such an ancestor has already been
passed on the way down. -/
def findDescN (anc des : Node → Bool) (inAnc : Bool) : Node → List Node
  | .text s => if inAnc && des (.text s) then [.text s] else []
  | .elem t a cs =>
    (if inAnc && des (.elem t a cs) then [.elem t a cs] else []) ++
      findDescF anc des (inAnc || anc (.elem t a cs)) cs

def findDescF (anc des : Node → Bool) (inAnc : Bool) : List Node → List Node
  | [] => []
  | c :: cs => findDescN anc des inAnc c ++ findDescF anc des inAnc cs

end

mutual

/-- Concatenated text content of a node (`.text()`). -/
def textN : Node → String
  | .text s => s
  | .elem _ _ cs => textF cs

def textF : List Node → String
  | [] => ""
  | c :: cs => textN c ++ textF cs

end

/-- `$(sel).text()`: concatenated text of every matching node in document
order. -/
def textOfMatches (p : Node → Bool) (roots : List Node) : String :=
  String.join ((findAllF p roots).map textN)

mutual

/-- Remove every subtree whose root satisfies `p` (an intrinsic-selector
`find(sel).remove()` pass). -/
def removeSimpleN (p : Node → Bool) : Node → Node
  | .text s => .text s
  | .elem t a cs => .elem t a (removeSimpleF p cs)

def removeSimpleF (p : Node → Bool) : List Node → List Node
  | [] => []
  | c :: cs => if p c then removeSimpleF p cs else removeSimpleN p c :: removeSimpleF p cs

end

mutual

/-- Remove every subtree whose root satisfies `tgt` and has a strict
ancestor satisfying `anc` (descendant-combinator removal). -/
def removeDescN (anc tgt : Node → Bool) (inAnc : Bool) : Node → Node
  | .text s => .text s
  | .elem t a cs => .elem t a (removeDescF anc tgt (inAnc || anc (.elem t a cs)) cs)

def removeDescF (anc tgt : Node → Bool) (inAnc : Bool) : List Node → List Node
  | [] => []
  | c :: cs =>
    if inAnc && tgt c then removeDescF anc tgt inAnc cs
    else removeDescN anc tgt inAnc c :: removeDescF anc tgt inAnc cs

end

def isElemN : Node → Bool
  | .elem _ _ _ => true
  | .text _ => false

mutual

/-- Remove every element satisfying `tgt` whose immediately preceding
element sibling (in the pre-pass tree, as the matched set is computed before
removal) satisfies `prevSel`. -/
def removeAdjN (prevSel tgt : Node → Bool) : Node → Node
  | .text s => .text s
  | .elem t a cs => .elem t a (removeAdjF prevSel tgt none cs)

def removeAdjF (prevSel tgt : Node → Bool) (lastElem : Option Node) : List Node → List Node
  | [] => []
  | c :: cs =>
    let last2 : Option Node := if isElemN c then some c else lastElem
    if isElemN c && tgt c && (match lastElem with | some pe => prevSel pe | none => false) then
      removeAdjF prevSel tgt last2 cs
    else
      removeAdjN prevSel tgt c :: removeAdjF prevSel tgt last2 cs

end

/-- An empty whitelisted element, as matched by `p:empty, div:empty,
span:empty`: one of the three tags with no child nodes at all. -/
def isEmptyWhitelisted : Node → Bool
  | .elem t _ [] => t = "p" || t = "div" || t = "span"
  | _ => false

mutual

def removeEmptyN : Node → Node
  | .text s => .text s
  | .elem t a cs => .elem t a (removeEmptyF cs)

/-- One simultaneous pass removing currently-empty whitelisted elements
(the matched set is computed before any removal). -/
def removeEmptyF : List Node → List Node
  | [] => []
  | c :: cs =>
    if isEmptyWhitelisted c then removeEmptyF cs
    else removeEmptyN c :: removeEmptyF cs

end

mutual

def mapTextN (f : String → String) : Node → Node
  | .text s => .text (f s)
  | .elem t a cs => .elem t a (mapTextF f cs)

def mapTextF (f : String → String) : List Node → List Node
  | [] => []
  | c :: cs => mapTextN f c :: mapTextF f cs

end

/-! String utilities translated from the source's regular expressions. -/

def isDigitC (c : Char) : Bool := '0' ≤ c && c ≤ '9'

/-- Substring test (`String.prototype.includes`). -/
def containsSub (hay needle : String) : Bool :=
  (hay.data.tails).any (fun t => needle.data.isPrefixOf t)

/-- Helper for the blank-line collapse: given the characters after an
initial newline, the regex `\n\s*\n\s*\n` (with greedy `\s*`) matches
exactly when the whitespace prefix holds at least two more newlines, and
the match extends through the last newline of that prefix.  Returns the
number of characters consumed after the initial newline. -/
def blankTail (l : List Char) : Option Nat :=
  let pre := l.takeWhile isWsChar
  if 2 ≤ pre.count '\n' then
    match (pre.reverse.dropWhile (fun c => c ≠ '\n')).length with
    | 0 => none
    | k => some k
  else none

/-- Global replacement `s.replace(/\n\s*\n\s*\n/g, '\n\n')` (fuelled by the
input length; each step consumes at least one character). -/
def collapseAux : Nat → List Char → List Char
  | 0, l => l
  | _ + 1, [] => []
  | fuel + 1, c :: rest =>
    if c = '\n' then
      match blankTail rest with
      | some k => '\n' :: '\n' :: collapseAux fuel (rest.drop k)
      | none => c :: collapseAux fuel rest
    else c :: collapseAux fuel rest

def collapseBlankLines (s : String) : String := ⟨collapseAux s.data.length s.data⟩

/-- Whitespace squashing `text.replace(/\s+/g, ' ')`. -/
def squashWs (prevWs : Bool) : List Char → List Char
  | [] => []
  | c :: r =>
    if isWsChar c then
      if prevWs then squashWs true r else ' ' :: squashWs true r
    else c :: squashWs false r

def normSpace (s : String) : String := trimS ⟨squashWs false s.data⟩

def digitVal (c : Char) : Nat := c.toNat - '0'.toNat

def decVal (l : List Char) : Nat := l.foldl (fun a c => a * 10 + digitVal c) 0

def isHexDigitC (c : Char) : Bool :=
  isDigitC c || ('a' ≤ c && c ≤ 'f') || ('A' ≤ c && c ≤ 'F')

def hexVal (c : Char) : Nat :=
  if isDigitC c then digitVal c
  else if 'a' ≤ c && c ≤ 'f' then c.toNat - 'a'.toNat + 10
  else c.toNat - 'A'.toNat + 10

def hexNum (l : List Char) : Nat := l.foldl (fun a c => a * 16 + hexVal c) 0

/-- The unsigned part of JS `parseInt`: an optional `0x`/`0X` hex prefix,
otherwise leading decimal digits; no digits means NaN (`none`). -/
def parseNatPart (l : List Char) : Option Nat :=
  match l with
  | '0' :: 'x' :: r =>
    let ds := r.takeWhile isHexDigitC
    if ds = [] then none else some (hexNum ds)
  | '0' :: 'X' :: r =>
    let ds := r.takeWhile isHexDigitC
    if ds = [] then none else some (hexNum ds)
  | _ =>
    let ds := l.takeWhile isDigitC
    if ds = [] then none else some (decVal ds)

/-- JS `parseInt(string)`: skip leading whitespace, optional sign, then the
unsigned part; NaN is `none`. -/
def parseIntJS (s : String) : Option Int :=
  match s.data.dropWhile isWsChar with
  | '-' :: r => (parseNatPart r).map (fun n => -(n : Int))
  | '+' :: r => (parseNatPart r).map (fun n => (n : Int))
  | r => (parseNatPart r).map (fun n => (n : Int))

/-- `parseInt(x) || 0` on an optional attribute value. -/
def parseIntOr0 (o : Option String) : Int :=
  match o with
  | none => 0
  | some s => (parseIntJS s).getD 0

/-! The parser's configuration record, with the documented defaults. -/

structure ImgOpts where
  convertToAbsolute : Bool := true
  removeSmallImages : Bool := true
  minWidth : Int := 50
  minHeight : Int := 50
deriving Repr, DecidableEq

structure LinkOpts where
  convertInternalLinks : Bool := true
  preserveExternalLinks : Bool := true
  baseUrl : String := "https://zh.minecraft.wiki"
deriving Repr, DecidableEq

def stdImgOpts : ImgOpts := {}

def stdLinkOpts : LinkOpts := {}

/-- The configured removal list, in source order. -/
def removeSels : List RSel :=
  [ .simple (.clsS "mw-editsection"),
    .simple (.clsS "navbox"),
    .simple (.clsS "metadata"),
    .simple (.clsS "stub"),
    .simple (.clsS "ambox"),
    .simple (.clsS "hatnote"),
    .simple (.clsS "mw-jump-link"),
    .simple (.clsS "printfooter"),
    .simple (.clsS "catlinks"),
    .adj (.idS "toc") (.clsS "mw-empty-elt"),
    .simple (.tagS "script"),
    .simple (.tagS "style"),
    .desc (.clsS "reference") (.clsS "mw-reflink-text"),
    .simple (.clsS "mw-cite-backlink") ]

/-- Apply one removal selector to the children forest of the content root;
for the descendant combinator the content root itself already counts as a
potential ancestor of the matched nodes. -/
def applyRSel (root : Node) (cs : List Node) : RSel → List Node
  | .simple s => removeSimpleF (matchS s) cs
  | .desc a t => removeDescF (matchS a) (matchS t) (matchS a root) cs
  | .adj p t => removeAdjF (matchS p) (matchS t) none cs

def setChildren : Node → List Node → Node
  | .text s, _ => .text s
  | .elem t a _, cs => .elem t a cs

/-- `_cleanContent`: the removal-selector passes, one pass over currently
empty whitelisted elements, then the blank-line collapse applied to the
serialized form.  A `\n\s*\n\s*\n` match cannot span an element tag (tags
serialize with non-whitespace characters), so the collapse acts within the
individual text nodes. -/
def cleanContent (root : Node) : Node :=
  let cs1 := removeSels.foldl (applyRSel root) root.children
  let cs2 := removeEmptyF cs1
  setChildren root (mapTextF collapseBlankLines cs2)

/-! Image processing (`_processImages`). -/

/-- The thumbnail/figure containers `closest('.thumb, .thumbinner, figure')`
searches for. -/
def isContainerN (n : Node) : Bool :=
  n.hasCls "thumb" || n.hasCls "thumbinner" || n.tagIs "figure"

/-- A truthy `src` attribute (present and non-empty). -/
def srcTruthy (a : List (String × String)) : Bool :=
  match getAttr a "src" with
  | some s => s ≠ ""
  | none => false

/-- The source's smallness test on the declared dimensions:
`(width > 0 && width < minWidth) || (height > 0 && height < minHeight)`. -/
def undersized (io : ImgOpts) (a : List (String × String)) : Bool :=
  let w := parseIntOr0 (getAttr a "width")
  let h := parseIntOr0 (getAttr a "height")
  (0 < w && w < io.minWidth) || (0 < h && h < io.minHeight)

/-- An image element with a truthy `src` whose declared width or height is
positive and below the configured minimum. -/
def isSmallImg (io : ImgOpts) : Node → Bool
  | .text _ => false
  | .elem t a _ => t = "img" && srcTruthy a && undersized io a

mutual

/-- A subtree holds a small image whose `closest` container search escapes
above this node (no container on the way up, the node itself included). -/
def dangerN (io : ImgOpts) : Node → Bool
  | .text _ => false
  | .elem t a cs =>
    if isContainerN (.elem t a cs) then false
    else isSmallImg io (.elem t a cs) || dangerF io cs

def dangerF (io : ImgOpts) : List Node → Bool
  | [] => false
  | c :: cs => dangerN io c || dangerF io cs

end

/-- A node is removed by the small-image pass exactly when it is the
container that some small image's `closest` search stops at (the image
itself when it is its own closest container). -/
def killN (io : ImgOpts) (n : Node) : Bool :=
  isContainerN n && (isSmallImg io n || dangerF io n.children)

/-- Caption text for a thumbnail container: the trimmed concatenated text
of its `.thumbcaption` descendants. -/
def captionOf (cs : List Node) : String :=
  trimS (textOfMatches (fun n => n.hasCls "thumbcaption") cs)

/-- Per-image attribute rewriting of `_processImages` for an element with
tag `t` and attributes `a`: non-images and images with a falsy `src` are
untouched; otherwise a root-relative `src` is absolutized, a small image
stops early (its container removal is the kill filter in `procImgF`), and
otherwise a missing/empty `alt` is synthesized from the caption `capt2` of
the nearest enclosing thumbnail container. -/
def imgAttrs (io : ImgOpts) (lo : LinkOpts) (capt2 : String) (t : String)
    (a : List (String × String)) : List (String × String) :=
  if t = "img" then
    match getAttr a "src" with
    | none => a
    | some s =>
      if s = "" then a
      else
        let s1 := if io.convertToAbsolute && startsWithS s "/" then lo.baseUrl ++ s else s
        let a1 := setAttr a "src" s1
        if io.removeSmallImages && undersized io a then a1
        else
          let altMissing := match getAttr a1 "alt" with
            | none => true
            | some al => al = ""
          if altMissing && capt2 ≠ "" then setAttr a1 "alt" capt2 else a1
  else a

mutual

/-- The recursive image pass; `capt` carries the caption of the nearest
`.thumbinner` ancestor-or-self. -/
def procImgN (io : ImgOpts) (lo : LinkOpts) (capt : String) : Node → Node
  | .text s => .text s
  | .elem t a cs =>
    let capt2 := if hasClassA a "thumbinner" then captionOf cs else capt
    .elem t (imgAttrs io lo capt2 t a) (procImgF io lo capt2 cs)

/-- Children pass: when small-image removal is on, drop every subtree whose
root the `closest` search of some contained small image stops at, then
process the survivors. -/
def procImgF (io : ImgOpts) (lo : LinkOpts) (capt : String) : List Node → List Node
  | [] => []
  | c :: cs =>
    if io.removeSmallImages && killN io c then procImgF io lo capt cs
    else procImgN io lo capt c :: procImgF io lo capt cs

end

/-- `_processImages` on the content root's children forest (the pass
reloads the inner markup, so the root itself is untouched). -/
def processImages (io : ImgOpts) (lo : LinkOpts) (cs : List Node) : List Node :=
  procImgF io lo "" cs

/-! Link processing (`_processLinks`). -/

mutual

/-- `_processLinks`: absolutize root-relative hrefs; unwrap edit links,
red links and self-links into their own text content. -/
def procLinkN (lo : LinkOpts) : Node → Node
  | .text s => .text s
  | .elem t a cs =>
    if t = "a" then
      match getAttr a "href" with
      | none => .elem t a (procLinkF lo cs)
      | some h =>
        if h = "" then .elem t a (procLinkF lo cs)
        else
          let h1 := if lo.convertInternalLinks && startsWithS h "/" then lo.baseUrl ++ h else h
          if containsSub h1 "action=edit" || containsSub h1 "redlink=1" || hasClassA a "mw-selflink" then
            .text (textF cs)
          else .elem t (setAttr a "href" h1) (procLinkF lo cs)
    else .elem t a (procLinkF lo cs)

def procLinkF (lo : LinkOpts) : List Node → List Node
  | [] => []
  | c :: cs => procLinkN lo c :: procLinkF lo cs

end

def processLinks (lo : LinkOpts) (cs : List Node) : List Node := procLinkF lo cs

/-! Table processing (`_processTables`). -/

def tableAttrNames : List String := ["style", "border", "cellpadding", "cellspacing"]

/-- Add the canonical class when absent (the source guards `addClass` with
`hasClass`). -/
def ensureWikitable (a : List (String × String)) : List (String × String) :=
  if hasClassA a "wikitable" then a else addClassA a "wikitable"

mutual

/-- `_processTables`: every table gains the `wikitable` class (if absent)
and loses `style border cellpadding cellspacing`; every strict descendant
of a table loses `style` (`$table.find('*').removeAttr('style')`). -/
def procTabN (inTab : Bool) : Node → Node
  | .text s => .text s
  | .elem t a cs =>
    let isTab := t = "table"
    let a1 := if isTab then ensureWikitable a else a
    let a2 := if isTab then dropAttrs a1 tableAttrNames else a1
    let a3 := if inTab then dropAttrs a2 ["style"] else a2
    .elem t a3 (procTabF (inTab || isTab) cs)

def procTabF (inTab : Bool) : List Node → List Node
  | [] => []
  | c :: cs => procTabN inTab c :: procTabF inTab cs

end

def processTables (cs : List Node) : List Node := procTabF false cs

/-! Structured component inventory (`_extractContentComponents`). -/

structure Section where
  level : Nat
  text : String
  id : String
  anchor : String
deriving Repr, DecidableEq

structure ImageRef where
  src : String
  alt : String
  caption : String
  width : Option String
  height : Option String
deriving Repr, DecidableEq

structure TableSummary where
  caption : String
  rowCount : Nat
  colCount : Nat
  hasHeader : Bool
deriving Repr, DecidableEq

structure InfoboxSummary where
  title : String
  typ : String
  hasImage : Bool
deriving Repr, DecidableEq

structure TocItem where
  text : String
  href : String
deriving Repr, DecidableEq

structure Toc where
  items : List TocItem
deriving Repr, DecidableEq

structure Components where
  sections : List Section
  images : List ImageRef
  tables : List TableSummary
  infoboxes : List InfoboxSummary
  toc : Option Toc
deriving Repr, DecidableEq, Inhabited

def headingLevel : String → Option Nat
  | "h1" => some 1
  | "h2" => some 2
  | "h3" => some 3
  | "h4" => some 4
  | "h5" => some 5
  | "h6" => some 6
  | _ => none

def isHeading (n : Node) : Bool :=
  match n with
  | .elem t _ _ => (headingLevel t).isSome
  | _ => false

/-- Sections: every heading in document order whose trimmed text is
non-empty; the anchor is `#id` when an id is present and non-empty. -/
def sectionsOf (cs : List Node) : List Section :=
  (findAllF isHeading cs).filterMap (fun n =>
    match n with
    | .elem t a _ =>
      let tx := trimS (textN n)
      if tx = "" then none
      else
        let i := (getAttr a "id").getD ""
        some { level := (headingLevel t).getD 0, text := tx, id := i,
               anchor := if i = "" then "" else "#" ++ i }
    | .text _ => none)

mutual

/-- Images: every `img` with a truthy `src`, in document order, with the
caption of the nearest `.thumbinner` ancestor-or-self. -/
def imagesN (capt : String) : Node → List ImageRef
  | .text _ => []
  | .elem t a cs =>
    let capt2 := if hasClassA a "thumbinner" then captionOf cs else capt
    (if t = "img" then
      match getAttr a "src" with
      | some s =>
        if s = "" then []
        else [{ src := s, alt := (getAttr a "alt").getD "", caption := capt2,
                width := getAttr a "width", height := getAttr a "height" }]
      | none => []
     else []) ++ imagesF capt2 cs

def imagesF (capt : String) : List Node → List ImageRef
  | [] => []
  | c :: cs => imagesN capt c ++ imagesF capt cs

end

def imagesOfForest (cs : List Node) : List ImageRef := imagesF "" cs

def isCellN (n : Node) : Bool := n.tagIs "th" || n.tagIs "td"

/-- One summary per table: all-descendant caption text, total `tr` count,
header-or-data cell count of the first `tr` only, and whether any `th`
exists anywhere in the table. -/
def tableSummaryOf (n : Node) : TableSummary :=
  let rows := findAllF (fun m => m.tagIs "tr") n.children
  { caption := trimS (textOfMatches (fun m => m.tagIs "caption") n.children),
    rowCount := rows.length,
    colCount := match rows.head? with
      | some r => (findAllF isCellN r.children).length
      | none => 0,
    hasHeader := (findAllF (fun m => m.tagIs "th") n.children) ≠ [] }

def tablesOf (cs : List Node) : List TableSummary :=
  (findAllF (fun n => n.tagIs "table") cs).map tableSummaryOf

/-- The first class token containing the substring `infobox`, defaulting to
`infobox` (the source splits the raw class value on single spaces). -/
def infoboxTypeOf (a : List (String × String)) : String :=
  (splitOnSpace ((getAttr a "class").getD "")).find? (fun c => containsSub c "infobox")
    |>.getD "infobox"

def infoboxOf (n : Node) : InfoboxSummary :=
  { title := match (findAllF (fun m => m.hasCls "infobox-title" || m.hasCls "fn") n.children).head? with
      | some m => trimS (textN m)
      | none => "",
    typ := match n with
      | .elem _ a _ => infoboxTypeOf a
      | .text _ => "infobox",
    hasImage := (findAllF (fun m => m.tagIs "img") n.children) ≠ [] }

def infoboxesOf (cs : List Node) : List InfoboxSummary :=
  (findAllF (fun n => n.hasCls "infobox") cs).map infoboxOf

def isTocContainer (n : Node) : Bool := n.idIs "toc" || n.hasCls "toc"

/-- The `{text, href}` entries: every anchor strictly inside some TOC
container with non-empty trimmed text and a truthy `href`. -/
def tocItemsOf (cs : List Node) : List TocItem :=
  (findDescF isTocContainer (fun n => n.tagIs "a") false cs).filterMap (fun n =>
    let tx := trimS (textN n)
    match n.attr "href" with
    | some h => if tx ≠ "" && h ≠ "" then some { text := tx, href := h } else none
    | none => none)

/-- TOC extraction: `null` when no `#toc, .toc` container exists, otherwise
the (possibly empty) item list. -/
def tocOf (cs : List Node) : Option Toc :=
  if findAllF isTocContainer cs = [] then none
  else some { items := tocItemsOf cs }

def extractContentComponents (cs : List Node) : Components :=
  { sections := sectionsOf cs,
    images := imagesOfForest cs,
    tables := tablesOf cs,
    infoboxes := infoboxesOf cs,
    toc := tocOf cs }

/-! Plain-text derivation and the word-count heuristic. -/

def isTextNoise (n : Node) : Bool :=
  n.tagIs "script" || n.tagIs "style" || n.hasCls "infobox" || n.idIs "toc" || n.hasCls "navbox"

/-- `_extractTextContent`: strip presentation-only elements, squash all
whitespace runs to single spaces, trim, then the (here vacuous) blank-line
collapse. -/
def extractTextContent (cs : List Node) : String :=
  collapseBlankLines (normSpace (textF (removeSimpleF isTextNoise cs)))

def isCJK (c : Char) : Bool := 0x4e00 ≤ c.toNat && c.toNat ≤ 0x9fff

def isLatinLetter (c : Char) : Bool := ('a' ≤ c && c ≤ 'z') || ('A' ≤ c && c ≤ 'Z')

/-- Count of the global matches of `/[a-zA-Z]+/` (maximal Latin-letter
runs), as a left-to-right scan. -/
def latinRunsAux (prev : Bool) : List Char → Nat
  | [] => 0
  | c :: r =>
    if isLatinLetter c then
      if prev then latinRunsAux true r else 1 + latinRunsAux true r
    else latinRunsAux false r

/-- `_countWords`: CJK ideographs (each one unit) plus maximal Latin-letter
runs (each one unit); empty/absent text counts zero. -/
def countWords (s : String) : Nat :=
  if s = "" then 0
  else s.data.countP isCJK + latinRunsAux false s.data

/-! Last-modified extraction (`_extractLastModified`). -/

/-- Try `\d{1,2}日` at the head of the list; returns the matched characters
and the rest. -/
def tryDay : List Char → Option (List Char × List Char)
  | a :: b :: c :: rest =>
    if isDigitC a && isDigitC b && c = '日' then some ([a, b, '日'], rest)
    else if isDigitC a && b = '日' then some ([a, '日'], c :: rest)
    else none
  | [a, b] => if isDigitC a && b = '日' then some ([a, '日'], []) else none
  | _ => none

/-- Try `\d{1,2}月\d{1,2}日` at the head of the list (the greedy two-digit
alternative is attempted first; the alternatives are disjoint since `月` is
not a digit). -/
def tryMonthDay : List Char → Option (List Char × List Char)
  | a :: b :: c :: rest =>
    if isDigitC a && isDigitC b && c = '月' then
      match tryDay rest with
      | some (dd, r) => some ([a, b, '月'] ++ dd, r)
      | none => none
    else if isDigitC a && b = '月' then
      match tryDay (c :: rest) with
      | some (dd, r) => some ([a, '月'] ++ dd, r)
      | none => none
    else none
  | _ => none

/-- Try the full pattern `\d{4}年\d{1,2}月\d{1,2}日` at the head. -/
def tryDate : List Char → Option (List Char × List Char)
  | a :: b :: c :: d :: e :: rest =>
    if isDigitC a && isDigitC b && isDigitC c && isDigitC d && e = '年' then
      match tryMonthDay rest with
      | some (md, r) => some ([a, b, c, d, '年'] ++ md, r)
      | none => none
    else none
  | _ => none

/-- Leftmost match of the date pattern (`text.match(...)` without `g`
returns the first match). -/
def findDate : List Char → Option String
  | [] => none
  | c :: rest =>
    match tryDate (c :: rest) with
    | some (m, _) => some ⟨m⟩
    | none => findDate rest

/-- `_extractLastModified`: the first `YYYY年M月D日` match in the text of
`#footer-info-lastmod`, `null` when the text is empty or has no match. -/
def extractLastModified (doc : List Node) : Option String :=
  let t := textOfMatches (fun n => n.idIs "footer-info-lastmod") doc
  if t = "" then none else findDate t.data

/-! Basic page information (`_extractBasicInfo`) and the pipeline. -/

structure PageInfo where
  title : Option String := none
  ns : Option String := none
deriving Repr, DecidableEq

structure CategoryRef where
  name : String
  url : String
deriving Repr, DecidableEq

structure LanguageRef where
  name : String
  code : Option String
  url : String
deriving Repr, DecidableEq

/-- `_normalizeUrl`: empty/absent stays empty, `http...` is untouched,
root-relative gets the base URL prefix, anything else is untouched. -/
def normalizeUrl (lo : LinkOpts) (u : Option String) : String :=
  match u with
  | none => ""
  | some s =>
    if s = "" then ""
    else if startsWithS s "http" then s
    else if startsWithS s "/" then lo.baseUrl ++ s
    else s

def categoriesOf (lo : LinkOpts) (doc : List Node) : List CategoryRef :=
  (findDescF (fun n => n.idIs "mw-normal-catlinks")
      (fun n => n.tagIs "a" && (n.attr "title").isSome) false doc).filterMap (fun n =>
    let nm := trimS (textN n)
    if nm = "" then none
    else some { name := nm, url := normalizeUrl lo (n.attr "href") })

def languagesOf (doc : List Node) : List LanguageRef :=
  (findDescF (fun n => n.idIs "p-lang") (fun n => n.tagIs "a") false doc).filterMap (fun n =>
    let nm := trimS (textN n)
    match n.attr "href" with
    | some u =>
      if nm ≠ "" && u ≠ "" then some { name := nm, code := n.attr "hreflang", url := u }
      else none
    | none => none)

structure BasicInfo where
  title : String
  subtitle : String
  categories : List CategoryRef
  languages : List LanguageRef
  ns : String
  lastModified : Option String
deriving Repr, DecidableEq

/-- `_extractBasicInfo`: the trimmed `#firstHeading` text, else the page
hint's title, else empty (the `||` chain, under which an empty hint title
also yields the empty string). -/
def extractBasicInfo (lo : LinkOpts) (doc : List Node) (pi : PageInfo) : BasicInfo :=
  let ht := trimS (textOfMatches (fun n => n.idIs "firstHeading") doc)
  { title := if ht ≠ "" then ht else (pi.title.getD ""),
    subtitle := trimS (textOfMatches (fun n => n.idIs "contentSub") doc),
    categories := categoriesOf lo doc,
    languages := languagesOf doc,
    ns := pi.ns.getD "",
    lastModified := extractLastModified doc }

/-- The four structural wiki-page markers of `_isValidWikiPage`. -/
def validIndicators : List SSel :=
  [.idS "mw-content-text", .clsS "mw-parser-output", .idS "firstHeading", .idS "mw-head"]

def isValidWikiPage (doc : List Node) : Bool :=
  validIndicators.any (fun s => findAllF (matchS s) doc ≠ [])

/-- `_extractMainContent`: the primary selector
`#mw-content-text .mw-parser-output`, then the ordered fallbacks
`#mw-content-text`, `.mw-body-content`, `#content .mw-content-ltr`; the
first non-empty match wins and exhaustion is `none`. -/
def extractMainContent (doc : List Node) : Option Node :=
  match (findDescF (matchS (.idS "mw-content-text")) (matchS (.clsS "mw-parser-output"))
      false doc).head? with
  | some n => some n
  | none =>
    match (findAllF (matchS (.idS "mw-content-text")) doc).head? with
    | some n => some n
    | none =>
      match (findAllF (matchS (.clsS "mw-body-content")) doc).head? with
      | some n => some n
      | none =>
        (findDescF (matchS (.idS "content")) (matchS (.clsS "mw-content-ltr")) false doc).head?

structure DocMeta where
  wordCount : Nat
  imageCount : Nat
  tableCount : Nat
  sectionCount : Nat
deriving Repr, DecidableEq, Inhabited

structure PageData where
  title : String
  subtitle : String
  categories : List CategoryRef
  languages : List LanguageRef
  ns : String
  lastModified : Option String
  contentHtml : List Node
  text : String
  components : Components
  meta : DocMeta
deriving Repr, DecidableEq, Inhabited

structure ParseErr where
  code : String
  message : String
deriving Repr, DecidableEq

/-- The extraction result: the success payload or the error object built in
the catch-all (whose `details` is always `null` and is omitted; the impure
`processingTime` timestamp of the meta block is likewise omitted). -/
inductive ParseResult where
  | success (data : PageData)
  | failure (e : ParseErr)
deriving Repr, DecidableEq

/-- The markup argument at the adapter boundary: absent/empty (falsy), a
non-string value, or a loaded document forest. -/
inductive HtmlArg where
  | absent
  | nonString
  | doc (nodes : List Node)
deriving Repr, DecidableEq

def msgInvalidInput : String := "HTML内容必须是非空字符串"

def msgNotWikiPage : String := "不是有效的Wiki页面HTML"

def msgNoContent : String := "找不到主要内容区域"

/-- The success payload assembled from the located content root: the four
in-place passes, then components, serialization and text, with the meta
counts taken from the component lists themselves. -/
def buildSuccess (lo : LinkOpts) (io : ImgOpts) (basic : BasicInfo) (root : Node) : PageData :=
  let c1 := cleanContent root
  let cs2 := processImages io lo c1.children
  let cs3 := processLinks lo cs2
  let cs4 := processTables cs3
  let comps := extractContentComponents cs4
  let textC := extractTextContent cs4
  { title := basic.title, subtitle := basic.subtitle, categories := basic.categories,
    languages := basic.languages, ns := basic.ns, lastModified := basic.lastModified,
    contentHtml := cs4, text := textC, components := comps,
    meta := { wordCount := countWords textC, imageCount := comps.images.length,
              tableCount := comps.tables.length, sectionCount := comps.sections.length } }

/-- `parsePageContent`: the entry point.  Every internal throw is caught at
the boundary and returned as a `PARSE_ERROR` failure value. -/
def parsePageContent (html : HtmlArg) (pageInfo : PageInfo) : ParseResult :=
  match html with
  | .absent => .failure { code := "PARSE_ERROR", message := msgInvalidInput }
  | .nonString => .failure { code := "PARSE_ERROR", message := msgInvalidInput }
  | .doc d =>
    if isValidWikiPage d then
      let basic := extractBasicInfo stdLinkOpts d pageInfo
      match extractMainContent d with
      | none => .failure { code := "PARSE_ERROR", message := msgNoContent }
      | some root => .success (buildSuccess stdLinkOpts stdImgOpts basic root)
    else .failure { code := "PARSE_ERROR", message := msgNotWikiPage }

/-! Result accessors. -/

def errCode : ParseResult → Option String
  | .failure e => some e.code
  | .success _ => none

def errMsg : ParseResult → Option String
  | .failure e => some e.message
  | .success _ => none

def ParseResult.isSuccess : ParseResult → Bool
  | .success _ => true
  | .failure _ => false

def dataOf : ParseResult → Option PageData
  | .success d => some d
  | .failure _ => none

/-- The payload of a successful result (a default payload for failures, so
that concrete successful runs can be named without binders). -/
def successData : ParseResult → PageData
  | .success d => d
  | .failure _ => default

/-! Shared structural lemmas about the pipeline. -/

theorem parse_success_inv (h : HtmlArg) (p : PageInfo) (d : PageData)
    (hs : parsePageContent h p = .success d) :
    ∃ d0 root, h = .doc d0 ∧ isValidWikiPage d0 = true ∧ extractMainContent d0 = some root ∧
      d = buildSuccess stdLinkOpts stdImgOpts (extractBasicInfo stdLinkOpts d0 p) root := by
  cases h with
  | absent => simp [parsePageContent] at hs
  | nonString => simp [parsePageContent] at hs
  | doc d0 =>
    by_cases hv : isValidWikiPage d0
    · cases hroot : extractMainContent d0 with
      | none => simp [parsePageContent, hv, hroot] at hs
      | some root =>
        refine ⟨d0, root, rfl, hv, hroot, ?_⟩
        simp only [parsePageContent, hv, if_true, hroot] at hs
        exact (ParseResult.success.injEq _ _).mp hs.symm |>.symm ▸ rfl
    · simp [parsePageContent, hv] at hs

/-! C1: failure tagging at the pipeline boundary. -/

def c1docNW : List Node := [.elem "div" [] [.text "hello"]]

/-- C1 counterexample: the invalid-input failure and the not-a-wiki-page
failure are two different causes, yet both carry the same kind tag
`PARSE_ERROR` (which is none of the four spec kind names), so the failure
cause is not recoverable from the kind field. -/
theorem parse_kind_field_shared :
    errCode (parsePageContent .absent {}) = some "PARSE_ERROR" ∧
    errCode (parsePageContent (.doc c1docNW) {}) = some "PARSE_ERROR" ∧
    errMsg (parsePageContent .absent {}) ≠ errMsg (parsePageContent (.doc c1docNW) {}) ∧
    "PARSE_ERROR" ∉
      (["InvalidInput", "NotAWikiPage", "ContentNotFound", "InternalExtractionError"] : List String) := by
  refine ⟨rfl, ?_, ?_, ?_⟩ <;> decide

/-- C1 (amended): the entry point is total — every call returns a success
value or a failure whose kind tag is always the single code `PARSE_ERROR`;
the three realizable failure causes (invalid input, not a wiki page, no
content area) are distinguished only by the message field, whose fixed
strings characterize the causes exactly. -/
theorem parse_failures_characterized (h : HtmlArg) (p : PageInfo) :
    ((parsePageContent h p).isSuccess = true ∨
      (errCode (parsePageContent h p) = some "PARSE_ERROR" ∧
        (errMsg (parsePageContent h p) = some msgInvalidInput ∨
         errMsg (parsePageContent h p) = some msgNotWikiPage ∨
         errMsg (parsePageContent h p) = some msgNoContent))) ∧
    (errMsg (parsePageContent h p) = some msgInvalidInput ↔ (h = .absent ∨ h = .nonString)) ∧
    (errMsg (parsePageContent h p) = some msgNotWikiPage ↔
      ∃ d0, h = .doc d0 ∧ isValidWikiPage d0 = false) ∧
    (errMsg (parsePageContent h p) = some msgNoContent ↔
      ∃ d0, h = .doc d0 ∧ isValidWikiPage d0 = true ∧ extractMainContent d0 = none) := by
  have h12 : msgInvalidInput ≠ msgNotWikiPage := by decide
  have h13 : msgInvalidInput ≠ msgNoContent := by decide
  have h23 : msgNotWikiPage ≠ msgNoContent := by decide
  cases h with
  | absent =>
    refine ⟨Or.inr ⟨rfl, Or.inl rfl⟩, by simp [parsePageContent, errMsg], ?_, ?_⟩
    · simp [parsePageContent, errMsg, h12]
    · simp [parsePageContent, errMsg, h13]
  | nonString =>
    refine ⟨Or.inr ⟨rfl, Or.inl rfl⟩, by simp [parsePageContent, errMsg], ?_, ?_⟩
    · simp [parsePageContent, errMsg, h12]
    · simp [parsePageContent, errMsg, h13]
  | doc d0 =>
    by_cases hv : isValidWikiPage d0
    · cases hroot : extractMainContent d0 with
      | none =>
        refine ⟨Or.inr ⟨by simp [parsePageContent, hv, hroot, errCode],
          Or.inr (Or.inr (by simp [parsePageContent, hv, hroot, errMsg]))⟩, ?_, ?_, ?_⟩
        · simp [parsePageContent, hv, hroot, errMsg, h13.symm]
        · simp [parsePageContent, hv, hroot, errMsg, h23.symm, hv]
        · simp [parsePageContent, hv, hroot, errMsg]
      | some root =>
        refine ⟨Or.inl (by simp [parsePageContent, hv, hroot, ParseResult.isSuccess]), ?_, ?_, ?_⟩
        · simp [parsePageContent, hv, hroot, errMsg]
        · simp [parsePageContent, hv, hroot, errMsg, hv]
        · simp [parsePageContent, hv, hroot, errMsg]
    · refine ⟨Or.inr ⟨by simp [parsePageContent, hv, errCode],
        Or.inr (Or.inl (by simp [parsePageContent, hv, errMsg]))⟩, ?_, ?_, ?_⟩
      · simp [parsePageContent, hv, errMsg, h12.symm]
      · simp [parsePageContent, hv, errMsg, hv]
      · simp [parsePageContent, hv, errMsg, h23, hv]

/-! C2: idempotence of the noise-removal pass. -/

def cleanCounterDoc : Node :=
  .elem "div" [("class", "mw-parser-output")] [.elem "div" [] [.elem "p" [] []]]

/-- C2 counterexample: the empty-element removal is a single simultaneous
pass, so cleaning `<div><p></p></div>` removes only the `p`; the second
clean removes the now-empty `div`, hence `clean(clean(x)) != clean(x)`. -/
theorem clean_not_idempotent :
    cleanContent (cleanContent cleanCounterDoc) ≠ cleanContent cleanCounterDoc := by
  decide

theorem matchS_removeSimpleN (s : SSel) (p : Node → Bool) (n : Node) :
    matchS s (removeSimpleN p n) = matchS s n := by
  cases n <;> cases s <;> rfl

mutual

theorem removeSimpleN_idem (s : SSel) (n : Node) :
    removeSimpleN (matchS s) (removeSimpleN (matchS s) n) = removeSimpleN (matchS s) n := by
  cases n with
  | text t => rfl
  | elem t a cs => simp [removeSimpleN, removeSimpleF_idem s cs]

theorem removeSimpleF_idem (s : SSel) (l : List Node) :
    removeSimpleF (matchS s) (removeSimpleF (matchS s) l) = removeSimpleF (matchS s) l := by
  cases l with
  | nil => rfl
  | cons c cs =>
    by_cases hc : matchS s c = true
    · simp [removeSimpleF, hc, removeSimpleF_idem s cs]
    · simp [removeSimpleF, hc, matchS_removeSimpleN, removeSimpleN_idem s c,
        removeSimpleF_idem s cs]

end

/-- C2 (amended): full `clean` is not idempotent (see the counterexample,
where a second run removes an element the first run made empty); what does
hold is that each single intrinsic (tag/class/id/attribute) removal-selector
pass of `clean` is idempotent. -/
theorem clean_single_selector_idempotent :
    ∀ (s : SSel) (l : List Node),
      removeSimpleF (matchS s) (removeSimpleF (matchS s) l) = removeSimpleF (matchS s) l :=
  fun s l => removeSimpleF_idem s l

/-! C7: meta counts versus component lists. -/

/-- C7: in every successful result the meta counts are the lengths of the
very component lists of the same result, by construction. -/
theorem meta_counts_consistent (h : HtmlArg) (p : PageInfo) (d : PageData)
    (hs : parsePageContent h p = .success d) :
    d.meta.imageCount = d.components.images.length ∧
    d.meta.tableCount = d.components.tables.length ∧
    d.meta.sectionCount = d.components.sections.length := by
  obtain ⟨d0, root, -, -, -, hd⟩ := parse_success_inv h p d hs
  subst hd
  exact ⟨rfl, rfl, rfl⟩

def c7doc : List Node :=
  [.elem "div" [("id", "mw-content-text")]
    [.elem "div" [("class", "mw-parser-output")]
      [.elem "h2" [("id", "uses")] [.text "Uses"],
       .elem "img" [("src", "/a.png")] [],
       .elem "table" [] [.elem "tr" [] [.elem "td" [] [.text "1"]]]]]]

theorem meta_counts_consistent_witness :
    parsePageContent (.doc c7doc) {} = .success (successData (parsePageContent (.doc c7doc) {})) ∧
    (successData (parsePageContent (.doc c7doc) {})).meta.imageCount =
      (successData (parsePageContent (.doc c7doc) {})).components.images.length :=
  ⟨by decide, (meta_counts_consistent (.doc c7doc) {} _ (by decide)).1⟩

/-! C8: the word-count heuristic. -/

/-- The number of maximal Latin-letter runs, counted as the positions at
which a run starts (a Latin letter whose predecessor, if any, is not a
Latin letter). -/
def runStartCount (l : List Char) : Nat :=
  (l.zip (false :: l.map isLatinLetter)).countP (fun q => isLatinLetter q.1 && !q.2)

theorem latinRunsAux_eq : ∀ (l : List Char) (prev : Bool),
    latinRunsAux prev l =
      (l.zip (prev :: l.map isLatinLetter)).countP (fun q => isLatinLetter q.1 && !q.2)
  | [], _ => rfl
  | c :: r, prev => by
    have ih := latinRunsAux_eq r (isLatinLetter c)
    simp only [latinRunsAux, List.map_cons, List.zip_cons_cons, List.countP_cons]
    cases hc : isLatinLetter c with
    | true =>
      rw [hc] at ih
      cases prev with
      | true => simp [hc, ih]
      | false => rw [ih]; simp [hc]; omega
    | false =>
      rw [hc] at ih
      cases prev with
      | true => simp [hc, ih]
      | false => simp [hc, ih]

/-- C8: `countWords` returns the number of CJK ideographs plus the number
of maximal Latin-letter runs; in particular the mixed string counts
2 + 2 = 4. -/
theorem countWords_spec :
    (∀ s : String, countWords s = s.data.countP isCJK + runStartCount s.data) ∧
    countWords "钻石 diamond ore" = 4 := by
  constructor
  · intro s
    by_cases hs : s = ""
    · subst hs; rfl
    · simp [countWords, hs, runStartCount, latinRunsAux_eq]
  · decide

/-! C4: validator gating. -/

/-- C4: the validator is true iff at least one of the four fixed marker
selectors matches; markup with none of the four markers fails with the
not-a-wiki-page failure, and markup with a marker whose primary content
selector and all ordered fallbacks match zero nodes fails with the
content-not-found failure (both tagged `PARSE_ERROR`, distinguished by
their fixed messages). -/
theorem validator_gating :
    (∀ d : List Node, isValidWikiPage d = true ↔
      ∃ s ∈ validIndicators, findAllF (matchS s) d ≠ []) ∧
    (∀ (d : List Node) (p : PageInfo),
      (∀ s ∈ validIndicators, findAllF (matchS s) d = []) →
      parsePageContent (.doc d) p = .failure { code := "PARSE_ERROR", message := msgNotWikiPage }) ∧
    (∀ (d : List Node) (p : PageInfo),
      isValidWikiPage d = true →
      findDescF (matchS (.idS "mw-content-text")) (matchS (.clsS "mw-parser-output")) false d = [] →
      findAllF (matchS (.idS "mw-content-text")) d = [] →
      findAllF (matchS (.clsS "mw-body-content")) d = [] →
      findDescF (matchS (.idS "content")) (matchS (.clsS "mw-content-ltr")) false d = [] →
      parsePageContent (.doc d) p = .failure { code := "PARSE_ERROR", message := msgNoContent }) := by
  refine ⟨?_, ?_, ?_⟩
  · intro d
    simp [isValidWikiPage, List.any_eq_true]
  · intro d p hall
    have hv : ¬ (isValidWikiPage d = true) := by
      simp only [isValidWikiPage, List.any_eq_true, not_exists]
      intro s
      simp only [decide_eq_true_eq, not_and, not_not]
      exact hall s
    simp [parsePageContent, hv]
  · intro d p hv h1 h2 h3 h4
    have hm : extractMainContent d = none := by
      simp [extractMainContent, h1, h2, h3, h4]
    simp [parsePageContent, hv, hm]

def c4docNoMarker : List Node := [.elem "p" [] [.text "x"]]

def c4docHeadOnly : List Node := [.elem "div" [("id", "mw-head")] []]

theorem validator_gating_witness :
    parsePageContent (.doc c4docNoMarker) {} =
      .failure { code := "PARSE_ERROR", message := msgNotWikiPage } ∧
    parsePageContent (.doc c4docHeadOnly) {} =
      .failure { code := "PARSE_ERROR", message := msgNoContent } :=
  ⟨validator_gating.2.1 c4docNoMarker {} (by decide),
   validator_gating.2.2 c4docHeadOnly {} (by decide) (by decide) (by decide) (by decide) (by decide)⟩

/-! C6: TOC null versus empty. -/

theorem buildSuccess_toc (lo : LinkOpts) (io : ImgOpts) (basic : BasicInfo) (root : Node) :
    ((buildSuccess lo io basic root).components.toc = none ↔
      findAllF isTocContainer (buildSuccess lo io basic root).contentHtml = []) ∧
    (∀ t, (buildSuccess lo io basic root).components.toc = some t →
      t.items = tocItemsOf (buildSuccess lo io basic root).contentHtml) := by
  simp only [buildSuccess, extractContentComponents]
  generalize processTables (processLinks lo (processImages io lo (cleanContent root).children)) = cs
  constructor
  · by_cases hc : findAllF isTocContainer cs = [] <;> simp [tocOf, hc]
  · intro t ht
    by_cases hc : findAllF isTocContainer cs = []
    · simp [tocOf, hc] at ht
    · simp only [tocOf, hc, if_neg, if_false] at ht
      cases ht
      rfl

/-- C6: in every successful result `toc` is null exactly when no TOC
container exists in the cleaned subtree; when a container exists, the item
list holds one `{text, href}` entry per contained anchor with non-empty
trimmed text and non-empty `href`, so a container with zero qualifying
anchors yields an empty item list, distinct from null. -/
theorem toc_null_iff_container (d0 : List Node) (p : PageInfo) (d : PageData)
    (hs : parsePageContent (.doc d0) p = .success d) :
    (d.components.toc = none ↔ findAllF isTocContainer d.contentHtml = []) ∧
    (∀ t, d.components.toc = some t → t.items = tocItemsOf d.contentHtml) := by
  obtain ⟨d1, root, hdoc, -, -, hd⟩ := parse_success_inv _ p d hs
  subst hd
  exact buildSuccess_toc _ _ _ root

def c6doc : List Node :=
  [.elem "div" [("id", "mw-content-text")]
    [.elem "div" [("class", "mw-parser-output")]
      [.elem "div" [("id", "toc")] [.text "contents"]]]]

theorem toc_null_iff_container_witness :
    parsePageContent (.doc c6doc) {} = .success (successData (parsePageContent (.doc c6doc) {})) ∧
    (successData (parsePageContent (.doc c6doc) {})).components.toc = some { items := [] } ∧
    ((successData (parsePageContent (.doc c6doc) {})).components.toc = none ↔
      findAllF isTocContainer (successData (parsePageContent (.doc c6doc) {})).contentHtml = []) :=
  ⟨by decide, by decide,
   (toc_null_iff_container c6doc {} (successData (parsePageContent (.doc c6doc) {})) (by decide)).1⟩

/-! C9: title extraction and fallback. -/

/-- The claim's title rule: the trimmed text of the first-heading element
when non-empty, else the caller-supplied hint title when present, else
empty. -/
def titleSpec (doc : List Node) (p : PageInfo) : String :=
  let ht := trimS (textOfMatches (fun n => n.idIs "firstHeading") doc)
  if ht ≠ "" then ht
  else match p.title with
    | some t => t
    | none => ""

/-- C9: in every successful result the document title is the trimmed
`#firstHeading` text when non-empty, else the caller hint, else empty; a
missing or empty heading does not make the call fail. -/
theorem title_fallback (d0 : List Node) (p : PageInfo) (d : PageData)
    (hs : parsePageContent (.doc d0) p = .success d) :
    d.title = titleSpec d0 p := by
  obtain ⟨d1, root, hdoc, -, -, hd⟩ := parse_success_inv _ p d hs
  cases hdoc
  subst hd
  show (extractBasicInfo stdLinkOpts d0 p).title = titleSpec d0 p
  cases htp : p.title <;> simp [extractBasicInfo, titleSpec, htp]

def c9doc : List Node :=
  [.elem "div" [("id", "mw-content-text")]
    [.elem "div" [("class", "mw-parser-output")] [.text "body"]]]

theorem title_fallback_witness :
    parsePageContent (.doc c9doc) { title := some "Hint" } =
      .success (successData (parsePageContent (.doc c9doc) { title := some "Hint" })) ∧
    (successData (parsePageContent (.doc c9doc) { title := some "Hint" })).title = "Hint" :=
  ⟨by decide,
   (title_fallback c9doc { title := some "Hint" }
      (successData (parsePageContent (.doc c9doc) { title := some "Hint" }))
      (by decide)).trans (by decide)⟩

/-! C10: the last-modified date format. -/

/-- The claim's date format `YYYY年M月D日`: four digits, `年`, one or two
digits, `月`, one or two digits, `日`. -/
def isDateShape (s : String) : Prop :=
  ∃ y mo dd : List Char,
    y.length = 4 ∧ (∀ c ∈ y, isDigitC c = true) ∧
    1 ≤ mo.length ∧ mo.length ≤ 2 ∧ (∀ c ∈ mo, isDigitC c = true) ∧
    1 ≤ dd.length ∧ dd.length ≤ 2 ∧ (∀ c ∈ dd, isDigitC c = true) ∧
    s.data = y ++ '年' :: (mo ++ '月' :: (dd ++ ['日']))

/-- Some substring of `l` is a date of the claimed shape. -/
def containsDateSub (l : List Char) : Prop :=
  ∃ pre mid post : List Char, l = pre ++ mid ++ post ∧ isDateShape ⟨mid⟩

theorem list_len_one_or_two {α : Type} : ∀ (l : List α), 1 ≤ l.length → l.length ≤ 2 →
    (∃ a, l = [a]) ∨ ∃ a b, l = [a, b]
  | [], h1, _ => by simp at h1
  | [a], _, _ => Or.inl ⟨a, rfl⟩
  | [a, b], _, _ => Or.inr ⟨a, b, rfl⟩
  | a :: b :: c :: r, _, h2 => by simp at h2

theorem list_len_four {α : Type} : ∀ (l : List α), l.length = 4 → ∃ a b c d, l = [a, b, c, d]
  | [], h => by simp at h
  | [a], h => by simp at h
  | [a, b], h => by simp at h
  | [a, b, c], h => by simp at h
  | a :: b :: c :: d :: r, h => by
    simp at h
    exact ⟨a, b, c, d, by simp [h]⟩

theorem tryDay_sound : ∀ l m r, tryDay l = some (m, r) →
    ∃ dd : List Char, (∀ c ∈ dd, isDigitC c = true) ∧ 1 ≤ dd.length ∧ dd.length ≤ 2 ∧
      m = dd ++ ['日'] ∧ l = m ++ r
  | a :: b :: c :: rest, m, r => by
    simp only [tryDay]
    split_ifs with h1 h2
    · intro he
      obtain ⟨hm, hr⟩ := Prod.mk.injEq .. ▸ (Option.some.injEq _ _).mp he
      simp only [Bool.and_eq_true, decide_eq_true_eq] at h1
      subst hr
      exact ⟨[a, b], by simp [h1.1.1, h1.1.2], by simp, by simp, hm.symm, by simp [← hm, h1.2]⟩
    · intro he
      obtain ⟨hm, hr⟩ := Prod.mk.injEq .. ▸ (Option.some.injEq _ _).mp he
      simp only [Bool.and_eq_true, decide_eq_true_eq] at h2
      subst hr
      exact ⟨[a], by simp [h2.1], by simp, by simp, hm.symm, by simp [← hm, h2.2]⟩
    · intro he; cases he
  | [a, b], m, r => by
    simp only [tryDay]
    split_ifs with h1
    · intro he
      obtain ⟨hm, hr⟩ := Prod.mk.injEq .. ▸ (Option.some.injEq _ _).mp he
      simp only [Bool.and_eq_true, decide_eq_true_eq] at h1
      subst hr
      exact ⟨[a], by simp [h1.1], by simp, by simp, hm.symm, by simp [← hm, h1.2]⟩
    · intro he; cases he
  | [], m, r => by intro he; cases he
  | [a], m, r => by intro he; cases he

theorem tryMonthDay_sound : ∀ l m r, tryMonthDay l = some (m, r) →
    ∃ mo dd : List Char,
      (∀ c ∈ mo, isDigitC c = true) ∧ 1 ≤ mo.length ∧ mo.length ≤ 2 ∧
      (∀ c ∈ dd, isDigitC c = true) ∧ 1 ≤ dd.length ∧ dd.length ≤ 2 ∧
      m = mo ++ '月' :: (dd ++ ['日']) ∧ l = m ++ r
  | a :: b :: c :: rest, m, r => by
    simp only [tryMonthDay]
    split_ifs with h1 h2
    · cases hd : tryDay rest with
      | none => intro he; cases he
      | some pr =>
        intro he
        obtain ⟨hm, hr⟩ := Prod.mk.injEq .. ▸ (Option.some.injEq _ _).mp he
        simp only [Bool.and_eq_true, decide_eq_true_eq] at h1
        obtain ⟨dd, hdd, hd1, hd2, hdm, hdl⟩ := tryDay_sound rest pr.1 pr.2 (by
          simpa using hd)
        subst hr
        refine ⟨[a, b], dd, by simp [h1.1.1, h1.1.2], by simp, by simp, hdd, hd1, hd2, ?_, ?_⟩
        · simp [← hm, hdm, h1.2]
        · simp [← hm, hdm, h1.2, hdl]
    · cases hd : tryDay (c :: rest) with
      | none => intro he; cases he
      | some pr =>
        intro he
        obtain ⟨hm, hr⟩ := Prod.mk.injEq .. ▸ (Option.some.injEq _ _).mp he
        simp only [Bool.and_eq_true, decide_eq_true_eq] at h2
        obtain ⟨dd, hdd, hd1, hd2, hdm, hdl⟩ := tryDay_sound (c :: rest) pr.1 pr.2 (by
          simpa using hd)
        subst hr
        refine ⟨[a], dd, by simp [h2.1], by simp, by simp, hdd, hd1, hd2, ?_, ?_⟩
        · simp [← hm, hdm, h2.2]
        · simp [← hm, hdm, h2.2, hdl]
    · intro he; cases he
  | [], m, r => by intro he; cases he
  | [a], m, r => by intro he; cases he
  | [a, b], m, r => by intro he; cases he

theorem tryDate_sound (l : List Char) (m r : List Char) (h : tryDate l = some (m, r)) :
    isDateShape ⟨m⟩ ∧ l = m ++ r := by
  match l, h with
  | a :: b :: c :: d :: e :: rest, h => ?_
  revert h
  simp only [tryDate]
  split_ifs with h1
  · cases hd : tryMonthDay rest with
    | none => intro he; cases he
    | some pr =>
      intro he
      obtain ⟨hm, hr⟩ := Prod.mk.injEq .. ▸ (Option.some.injEq _ _).mp he
      simp only [Bool.and_eq_true, decide_eq_true_eq] at h1
      obtain ⟨mo, dd, hmo, hm1, hm2, hdd, hd1, hd2, hmd, hml⟩ :=
        tryMonthDay_sound rest pr.1 pr.2 (by simpa using hd)
      subst hr
      constructor
      · refine ⟨[a, b, c, d], mo, dd, by simp, ?_, hm1, hm2, hmo, hd1, hd2, hdd, ?_⟩
        · simp [h1.1.1.1.1, h1.1.1.1.2, h1.1.1.2, h1.1.2]
        · show m = [a, b, c, d] ++ '年' :: (mo ++ '月' :: (dd ++ ['日']))
          simp [← hm, hmd, h1.2]
      · simp [← hm, hmd, h1.2, hml]
  · intro he; cases he

theorem findDate_sound : ∀ (l : List Char) (s : String), findDate l = some s →
    isDateShape s ∧ ∃ pre post, l = pre ++ s.data ++ post
  | [], s => by intro he; cases he
  | c :: rest, s => by
    simp only [findDate]
    cases ht : tryDate (c :: rest) with
    | some pr =>
      intro he
      obtain ⟨hshape, hsplit⟩ := tryDate_sound (c :: rest) pr.1 pr.2 (by simpa using ht)
      cases he
      exact ⟨hshape, [], pr.2, by simpa using hsplit⟩
    | none =>
      intro he
      obtain ⟨hshape, pre, post, hsplit⟩ := findDate_sound rest s he
      exact ⟨hshape, c :: pre, post, by simp [hsplit]⟩

theorem tryDay_complete (dd q : List Char) (hdd : ∀ c ∈ dd, isDigitC c = true)
    (h1 : 1 ≤ dd.length) (h2 : dd.length ≤ 2) :
    (tryDay (dd ++ '日' :: q)).isSome = true := by
  rcases list_len_one_or_two dd h1 h2 with ⟨a, rfl⟩ | ⟨a, b, rfl⟩
  · have ha : isDigitC a = true := hdd a (by simp)
    cases q with
    | nil => simp [tryDay, ha]
    | cons x xs =>
      have : isDigitC '日' = false := by decide
      simp [tryDay, ha, this]
  · have ha : isDigitC a = true := hdd a (by simp)
    have hb : isDigitC b = true := hdd b (by simp)
    simp [tryDay, ha, hb]

theorem tryMonthDay_complete (mo dd q : List Char)
    (hmo : ∀ c ∈ mo, isDigitC c = true) (hm1 : 1 ≤ mo.length) (hm2 : mo.length ≤ 2)
    (hdd : ∀ c ∈ dd, isDigitC c = true) (hd1 : 1 ≤ dd.length) (hd2 : dd.length ≤ 2) :
    (tryMonthDay (mo ++ '月' :: (dd ++ '日' :: q))).isSome = true := by
  have hday := tryDay_complete dd q hdd hd1 hd2
  rcases list_len_one_or_two mo hm1 hm2 with ⟨a, rfl⟩ | ⟨a, b, rfl⟩
  · have ha : isDigitC a = true := hmo a (by simp)
    have hnd : isDigitC '月' = false := by decide
    cases hdq : dd ++ '日' :: q with
    | nil => exact absurd hdq (by cases dd <;> simp)
    | cons x xs =>
      rw [hdq] at hday
      simp only [List.cons_append, List.nil_append, hdq, tryMonthDay, ha, hnd]
      simp only [Bool.and_eq_true, decide_eq_true_eq]
      cases htd : tryDay (x :: xs) with
      | none => rw [htd] at hday; simp at hday
      | some pr => simp [htd, ha]
  · have ha : isDigitC a = true := hmo a (by simp)
    have hb : isDigitC b = true := hmo b (by simp)
    simp only [List.cons_append, List.nil_append, tryMonthDay, ha, hb]
    cases htd : tryDay (dd ++ '日' :: q) with
    | none => rw [htd] at hday; simp at hday
    | some pr => simp [htd]

theorem tryDate_complete (mid q : List Char) (h : isDateShape ⟨mid⟩) :
    (tryDate (mid ++ q)).isSome = true := by
  obtain ⟨y, mo, dd, hy4, hy, hm1, hm2, hmo, hd1, hd2, hdd, heq⟩ := h
  have heq' : mid = y ++ '年' :: (mo ++ '月' :: (dd ++ ['日'])) := heq
  obtain ⟨a, b, c, d, rfl⟩ := list_len_four y hy4
  have hmd := tryMonthDay_complete mo dd q hmo hm1 hm2 hdd hd1 hd2
  have hx : mid ++ q = a :: b :: c :: d :: '年' :: (mo ++ '月' :: (dd ++ '日' :: q)) := by
    simp [heq']
  rw [hx]
  have ha : isDigitC a = true := hy a (by simp)
  have hb : isDigitC b = true := hy b (by simp)
  have hc : isDigitC c = true := hy c (by simp)
  have hd : isDigitC d = true := hy d (by simp)
  simp only [tryDate, ha, hb, hc, hd]
  cases htd : tryMonthDay (mo ++ '月' :: (dd ++ '日' :: q)) with
  | none => rw [htd] at hmd; simp at hmd
  | some pr => simp [htd]

theorem dateShape_data_ne_nil (mid : List Char) (h : isDateShape ⟨mid⟩) : mid ≠ [] := by
  obtain ⟨y, mo, dd, hy4, -, -, -, -, -, -, -, heq⟩ := h
  have hm : mid = y ++ '年' :: (mo ++ '月' :: (dd ++ ['日'])) := heq
  subst hm
  obtain ⟨a, b, c, d, rfl⟩ := list_len_four y hy4
  simp

theorem findDate_complete : ∀ (pre mid post : List Char), isDateShape ⟨mid⟩ →
    (findDate (pre ++ mid ++ post)).isSome = true
  | [], mid, post, h => by
    have hne : mid ≠ [] := dateShape_data_ne_nil mid h
    cases hm : mid with
    | nil => exact absurd hm hne
    | cons c rest =>
      subst hm
      simp only [List.nil_append, List.cons_append, findDate]
      cases htd : tryDate (c :: (rest ++ post)) with
      | none =>
        have h3 : (tryDate (c :: (rest ++ post))).isSome = true := by
          simpa using tryDate_complete (c :: rest) post h
        rw [htd] at h3
        simp at h3
      | some pr => simp
  | c :: pre, mid, post, h => by
    have ih := findDate_complete pre mid post h
    simp only [List.cons_append, findDate]
    cases htd : tryDate (c :: (pre ++ mid ++ post)) with
    | none => simpa using ih
    | some pr => simp

/-- C10: in every successful result `lastModified` equals the first
`YYYY年M月D日` match in the footer last-modified text; any returned value
has exactly that shape and occurs in the footer text, and the result is
null exactly when the footer text (empty when the element is absent)
contains no substring of that shape. -/
theorem lastModified_spec (d0 : List Node) (p : PageInfo) (d : PageData)
    (hs : parsePageContent (.doc d0) p = .success d) :
    d.lastModified = extractLastModified d0 ∧
    (∀ s, d.lastModified = some s → isDateShape s ∧
      ∃ pre post, (textOfMatches (fun n => n.idIs "footer-info-lastmod") d0).data =
        pre ++ s.data ++ post) ∧
    (d.lastModified = none ↔
      ¬ containsDateSub (textOfMatches (fun n => n.idIs "footer-info-lastmod") d0).data) := by
  obtain ⟨d1, root, hdoc, -, -, hd⟩ := parse_success_inv _ p d hs
  cases hdoc
  subst hd
  have hlm : (buildSuccess stdLinkOpts stdImgOpts (extractBasicInfo stdLinkOpts d0 p) root).lastModified
      = extractLastModified d0 := rfl
  refine ⟨hlm, ?_, ?_⟩
  · intro s hsome
    rw [hlm] at hsome
    by_cases ht : textOfMatches (fun n => n.idIs "footer-info-lastmod") d0 = ""
    · exact absurd hsome (by simp [extractLastModified, ht])
    · have h3 : findDate (textOfMatches (fun n => n.idIs "footer-info-lastmod") d0).data = some s := by
        simpa [extractLastModified, ht] using hsome
      exact findDate_sound _ s h3
  · rw [hlm]
    by_cases ht : textOfMatches (fun n => n.idIs "footer-info-lastmod") d0 = ""
    · have hnone : extractLastModified d0 = none := by simp [extractLastModified, ht]
      rw [hnone]
      constructor
      · rintro - ⟨pre, mid, post, hsplit, hshape⟩
        rw [ht] at hsplit
        have h0 : (pre ++ mid) ++ post = ([] : List Char) := hsplit.symm
        obtain ⟨h2, -⟩ := List.append_eq_nil.mp h0
        obtain ⟨-, hmid⟩ := List.append_eq_nil.mp h2
        exact dateShape_data_ne_nil mid hshape hmid
      · intro _
        rfl
    · have heq : extractLastModified d0 =
          findDate (textOfMatches (fun n => n.idIs "footer-info-lastmod") d0).data := by
        simp [extractLastModified, ht]
      rw [heq]
      constructor
      · intro hnone hcon
        obtain ⟨pre, mid, post, hsplit, hshape⟩ := hcon
        have hC := findDate_complete pre mid post hshape
        rw [← hsplit, hnone] at hC
        simp at hC
      · intro hnc
        cases hfd : findDate (textOfMatches (fun n => n.idIs "footer-info-lastmod") d0).data with
        | none => rfl
        | some s =>
          obtain ⟨hshape, pre, post, hsplit⟩ := findDate_sound _ s hfd
          exact absurd ⟨pre, s.data, post, hsplit, by simpa using hshape⟩ hnc

def c10doc : List Node :=
  [.elem "div" [("id", "mw-content-text")]
    [.elem "div" [("class", "mw-parser-output")] [.text "hi"]],
   .elem "div" [("id", "footer-info-lastmod")] [.text "最后编辑于2024年3月15日。"]]

theorem lastModified_spec_witness :
    parsePageContent (.doc c10doc) {} = .success (successData (parsePageContent (.doc c10doc) {})) ∧
    (successData (parsePageContent (.doc c10doc) {})).lastModified = extractLastModified c10doc ∧
    extractLastModified c10doc = some "2024年3月15日" :=
  ⟨by decide,
   (lastModified_spec c10doc {} (successData (parsePageContent (.doc c10doc) {})) (by decide)).1,
   by decide⟩

/-! C3: small-image removal.  Attribute-level lemmas first. -/

theorem getAttr_cons (p : String × String) (r : List (String × String)) (m : String) :
    getAttr (p :: r) m = if p.1 = m then some p.2 else getAttr r m := by
  by_cases h : p.1 = m <;> simp [getAttr, List.find?_cons, h]

theorem getAttr_setAttr (a : List (String × String)) (n v m : String) :
    getAttr (setAttr a n v) m = if m = n then some v else getAttr a m := by
  induction a with
  | nil =>
    by_cases h : m = n
    · subst h; simp [setAttr, getAttr_cons, getAttr]
    · simp [setAttr, getAttr_cons, getAttr, h, Ne.symm h]
  | cons p r ih =>
    by_cases hp : p.1 = n
    · by_cases h : m = n
      · subst h; simp [setAttr, hp, getAttr_cons]
      · have hpm : p.1 ≠ m := by rw [hp]; exact Ne.symm h
        simp [setAttr, hp, getAttr_cons, h, Ne.symm h, hpm]
    · by_cases hm : p.1 = m
      · have hmn : m ≠ n := fun he => hp (hm.trans he)
        simp [setAttr, hp, getAttr_cons, hm, hmn]
      · simp [setAttr, hp, getAttr_cons, hm, ih]

theorem getAttr_dropAttrs (a : List (String × String)) (names : List String) (m : String) :
    getAttr (dropAttrs a names) m = if m ∈ names then none else getAttr a m := by
  induction a with
  | nil => by_cases h : m ∈ names <;> simp [dropAttrs, getAttr, h]
  | cons p r ih =>
    by_cases hp : p.1 ∈ names
    · have hstep : dropAttrs (p :: r) names = dropAttrs r names := by
        simp [dropAttrs, List.filter, hp]
      rw [hstep, ih]
      by_cases hm : p.1 = m
      · subst hm; simp [hp]
      · by_cases hcm : m ∈ names <;> simp [hcm, getAttr_cons, hm]
    · have hstep : dropAttrs (p :: r) names = p :: dropAttrs r names := by
        simp [dropAttrs, List.filter, hp]
      rw [hstep]
      by_cases hm : p.1 = m
      · have hcm : ¬ m ∈ names := by rw [← hm]; exact hp
        simp [getAttr_cons, hm, hcm, ih]
      · simp [getAttr_cons, hm, ih]

theorem str_append_ne_empty (a b : String) (hb : b ≠ "") : a ++ b ≠ "" := by
  intro h
  apply hb
  have hd : a.data ++ b.data = [] := by
    have h2 := congrArg String.data h
    simpa [String.data_append] using h2
  exact String.ext (by simp [(List.append_eq_nil.mp hd).2])

theorem getAttr_imgAttrs_other (io : ImgOpts) (lo : LinkOpts) (c t : String)
    (a : List (String × String)) (m : String) (hm1 : m ≠ "src") (hm2 : m ≠ "alt") :
    getAttr (imgAttrs io lo c t a) m = getAttr a m := by
  by_cases ht : t = "img"
  · rw [imgAttrs]
    simp only [ht, if_true]
    cases hsrc : getAttr a "src" with
    | none => rfl
    | some s =>
      by_cases hs : s = ""
      · simp [hs]
      · simp only [hs, ite_false, if_neg]
        split_ifs <;> simp [getAttr_setAttr, hm1, hm2]
  · rw [imgAttrs]; simp [ht]

theorem srcTruthy_imgAttrs (io : ImgOpts) (lo : LinkOpts) (c t : String)
    (a : List (String × String)) :
    srcTruthy (imgAttrs io lo c t a) = srcTruthy a := by
  by_cases ht : t = "img"
  · rw [imgAttrs]
    simp only [ht, if_true]
    cases hsrc : getAttr a "src" with
    | none => rfl
    | some s =>
      by_cases hs : s = ""
      · simp [hs]
      · have hs1 : (if io.convertToAbsolute && startsWithS s "/" then lo.baseUrl ++ s else s) ≠ "" := by
          split_ifs
          · exact str_append_ne_empty _ _ hs
          · exact hs
        simp only [hs, ite_false, if_neg]
        split_ifs <;>
          simp [srcTruthy, getAttr_setAttr, hsrc, hs, hs1, str_append_ne_empty lo.baseUrl s hs]
  · rw [imgAttrs]; simp [ht]

theorem undersized_imgAttrs (io2 io : ImgOpts) (lo : LinkOpts) (c t : String)
    (a : List (String × String)) :
    undersized io2 (imgAttrs io lo c t a) = undersized io2 a := by
  have hw : getAttr (imgAttrs io lo c t a) "width" = getAttr a "width" :=
    getAttr_imgAttrs_other io lo c t a "width" (by decide) (by decide)
  have hh : getAttr (imgAttrs io lo c t a) "height" = getAttr a "height" :=
    getAttr_imgAttrs_other io lo c t a "height" (by decide) (by decide)
  simp [undersized, hw, hh]

theorem hasClassA_imgAttrs (io : ImgOpts) (lo : LinkOpts) (c t : String)
    (a : List (String × String)) (cl : String) :
    hasClassA (imgAttrs io lo c t a) cl = hasClassA a cl := by
  unfold hasClassA
  rw [getAttr_imgAttrs_other io lo c t a "class" (by decide) (by decide)]

theorem isSmallImg_imgAttrs (io2 io : ImgOpts) (lo : LinkOpts) (c t : String)
    (a : List (String × String)) (x y : List Node) :
    isSmallImg io2 (.elem t (imgAttrs io lo c t a) x) = isSmallImg io2 (.elem t a y) := by
  simp [isSmallImg, srcTruthy_imgAttrs, undersized_imgAttrs]

theorem isContainerN_imgAttrs (io : ImgOpts) (lo : LinkOpts) (c t : String)
    (a : List (String × String)) (x y : List Node) :
    isContainerN (.elem t (imgAttrs io lo c t a) x) = isContainerN (.elem t a y) := by
  simp [isContainerN, Node.hasCls, Node.tagIs, hasClassA_imgAttrs]

theorem dangerN_of_kill (io : ImgOpts) (c : Node) (h : killN io c = true) :
    dangerN io c = false := by
  cases c with
  | text s => simp [killN, isContainerN, Node.hasCls, Node.tagIs] at h
  | elem t a cs =>
    have hc : isContainerN (.elem t a cs) = true := by
      have := h
      simp only [killN, Bool.and_eq_true] at this
      exact this.1
    simp [dangerN, hc]

mutual

theorem dangerN_procImgN (io : ImgOpts) (lo : LinkOpts) (capt : String) :
    ∀ c : Node, dangerN io (procImgN io lo capt c) = dangerN io c
  | .text s => rfl
  | .elem t a cs => by
    simp only [procImgN]
    generalize (if hasClassA a "thumbinner" then captionOf cs else capt) = capt2
    simp only [dangerN]
    rw [isContainerN_imgAttrs io lo capt2 t a (procImgF io lo capt2 cs) cs,
      isSmallImg_imgAttrs io io lo capt2 t a (procImgF io lo capt2 cs) cs,
      dangerF_procImgF io lo capt2 cs]

theorem dangerF_procImgF (io : ImgOpts) (lo : LinkOpts) (capt : String) :
    ∀ cs : List Node, dangerF io (procImgF io lo capt cs) = dangerF io cs
  | [] => rfl
  | c :: cs => by
    simp only [procImgF]
    split_ifs with hk
    · have hkc : killN io c = true := by
        simp only [Bool.and_eq_true] at hk
        exact hk.2
      rw [dangerF_procImgF io lo capt cs]
      simp [dangerF, dangerN_of_kill io c hkc]
    · simp [dangerF, dangerN_procImgN io lo capt c, dangerF_procImgF io lo capt cs]

end

mutual

/-- Claim-side violation checker: a small image (with truthy `src`) that is
itself a container or lies inside one (`ins` records a container among the
ancestors). -/
def violN (io : ImgOpts) (ins : Bool) : Node → Bool
  | .text _ => false
  | .elem t a cs =>
    (isSmallImg io (.elem t a cs) && (ins || isContainerN (.elem t a cs))) ||
      violF io (ins || isContainerN (.elem t a cs)) cs

def violF (io : ImgOpts) (ins : Bool) : List Node → Bool
  | [] => false
  | c :: cs => violN io ins c || violF io ins cs

end

/-- A small image whose `closest` search would stop at this node or escape
it: the node is a small image itself or holds an escaping one below. -/
def hasExpN (io : ImgOpts) (n : Node) : Bool :=
  isSmallImg io n || dangerF io n.children

theorem hasExpN_of_not_kill (io : ImgOpts) (c : Node) (hk : killN io c = false)
    (hd : dangerN io c = false) : hasExpN io c = false := by
  cases c with
  | text s => rfl
  | elem t a cs =>
    by_cases hc : isContainerN (.elem t a cs) = true
    · simp only [killN, hc, Bool.true_and] at hk
      exact hk
    · simp only [dangerN] at hd
      rw [if_neg (by simpa using hc)] at hd
      exact hd

mutual

theorem violN_procImgN (io : ImgOpts) (lo : LinkOpts) (hrm : io.removeSmallImages = true)
    (capt : String) (ins : Bool) :
    ∀ c : Node, killN io c = false → (ins = true → hasExpN io c = false) →
      violN io ins (procImgN io lo capt c) = false
  | .text s, _, _ => rfl
  | .elem t a cs, hk, hx => by
    simp only [procImgN]
    generalize (if hasClassA a "thumbinner" then captionOf cs else capt) = capt2
    simp only [violN]
    rw [isContainerN_imgAttrs io lo capt2 t a (procImgF io lo capt2 cs) cs,
      isSmallImg_imgAttrs io io lo capt2 t a (procImgF io lo capt2 cs) cs]
    have hexp : hasExpN io (.elem t a cs) =
        (isSmallImg io (.elem t a cs) || dangerF io cs) := rfl
    have hkill : killN io (.elem t a cs) =
        (isContainerN (.elem t a cs) && (isSmallImg io (.elem t a cs) || dangerF io cs)) := rfl
    cases hins : ins with
    | true =>
      subst hins
      have hx2 := hx rfl
      rw [hexp] at hx2
      simp only [Bool.or_eq_false_iff] at hx2
      have hvf : violF io true (procImgF io lo capt2 cs) = false :=
        violF_procImgF io lo hrm capt2 true cs (fun _ => hx2.2)
      simp [hx2.1, hvf]
    | false =>
      subst hins
      cases hcont : isContainerN (.elem t a cs) with
      | true =>
        rw [hkill, hcont] at hk
        simp only [Bool.true_and, Bool.or_eq_false_iff] at hk
        have hvf : violF io true (procImgF io lo capt2 cs) = false :=
          violF_procImgF io lo hrm capt2 true cs (fun _ => hk.2)
        simp [hk.1, hvf, hcont]
      | false =>
        have hvf : violF io false (procImgF io lo capt2 cs) = false :=
          violF_procImgF io lo hrm capt2 false cs (fun habs => nomatch habs)
        simp [hcont, hvf]

theorem violF_procImgF (io : ImgOpts) (lo : LinkOpts) (hrm : io.removeSmallImages = true)
    (capt : String) (ins : Bool) :
    ∀ cs : List Node, (ins = true → dangerF io cs = false) →
      violF io ins (procImgF io lo capt cs) = false
  | [], _ => rfl
  | c :: cs, hall => by
    simp only [procImgF]
    split_ifs with hkc
    · apply violF_procImgF io lo hrm capt ins cs
      intro h2
      have hd := hall h2
      simp only [dangerF, Bool.or_eq_false_iff] at hd
      exact hd.2
    · have hkill : killN io c = false := by
        cases hkval : killN io c
        · rfl
        · exact absurd (by simp [hrm, hkval]) hkc
      simp only [violF, Bool.or_eq_false_iff]
      constructor
      · apply violN_procImgN io lo hrm capt ins c hkill
        intro h2
        have hd := hall h2
        simp only [dangerF, Bool.or_eq_false_iff] at hd
        exact hasExpN_of_not_kill io c hkill hd.1
      · apply violF_procImgF io lo hrm capt ins cs
        intro h2
        have hd := hall h2
        simp only [dangerF, Bool.or_eq_false_iff] at hd
        exact hd.2

end

/-- C3 (amended): with small-image removal enabled at the default 50×50
minima, the image pass removes the whole closest thumbnail/figure container
of every small image, so the processed forest holds no small image (truthy
`src`, a declared dimension positive and below the minimum) that is a
container itself or lies inside one.  A small image without such a
container — or without a `src` — is not removed (see the counterexample,
where it still reaches `components.images`). -/
theorem small_image_containers_removed :
    ∀ cs : List Node,
      violF stdImgOpts false (processImages stdImgOpts stdLinkOpts cs) = false :=
  fun cs => violF_procImgF stdImgOpts stdLinkOpts rfl "" false cs (fun h => nomatch h)

def c3doc : List Node :=
  [.elem "div" [("id", "mw-content-text")]
    [.elem "div" [("class", "mw-parser-output")]
      [.elem "img" [("src", "/i.png"), ("width", "10"), ("height", "10")] []]]]

/-- C3 counterexample: an image declared 10×10 whose `src` is present but
which has no enclosing `.thumb`/`.thumbinner`/`figure` container is not
removed — `closest(...)` matches nothing and only the container would have
been removed — so it appears both in the cleaned markup and in
`components.images` of the successful result. -/
theorem small_image_without_container_kept :
    (dataOf (parsePageContent (.doc c3doc) {})).map (fun d => d.components.images) =
      some [{ src := "https://zh.minecraft.wiki/i.png", alt := "", caption := "",
              width := some "10", height := some "10" }] ∧
    (dataOf (parsePageContent (.doc c3doc) {})).map (fun d => d.contentHtml) =
      some [.elem "img"
        [("src", "https://zh.minecraft.wiki/i.png"), ("width", "10"), ("height", "10")] []] :=
  ⟨by decide, by decide⟩

/-! C5: table normalization.  Tokenization lemmas for `addClass` first. -/

theorem tokAux_allws : ∀ (z : List Char), (∀ c ∈ z, isWsChar c = true) → ∀ cur : List Char,
    tokAux cur z = if cur = [] then [] else [cur.reverse]
  | [], _, cur => by simp [tokAux]
  | c :: r, hz, cur => by
    have hc : isWsChar c = true := hz c (by simp)
    have ih := tokAux_allws r (fun x hx => hz x (List.mem_cons_of_mem c hx))
    by_cases hcur : cur = []
    · simp [tokAux, hc, hcur, ih []]
    · simp [tokAux, hc, hcur, ih []]

theorem tokAux_append_allws : ∀ (l z : List Char), (∀ c ∈ z, isWsChar c = true) →
    ∀ cur : List Char, tokAux cur (l ++ z) = tokAux cur l
  | [], z, hz, cur => by
    rw [List.nil_append, tokAux_allws z hz cur]
    simp [tokAux]
  | c :: l, z, hz, cur => by
    have ih := tokAux_append_allws l z hz
    by_cases hc : isWsChar c = true
    · by_cases hcur : cur = [] <;> simp [tokAux, hc, hcur, ih]
    · simp [tokAux, hc, ih]

theorem tokAux_dropWhile_ws (l : List Char) :
    tokAux [] (l.dropWhile isWsChar) = tokAux [] l := by
  induction l with
  | nil => rfl
  | cons c r ih =>
    by_cases hc : isWsChar c = true
    · simp [List.dropWhile_cons, hc, tokAux, ih]
    · simp [List.dropWhile_cons, hc]

theorem tokenizeL_trimL (l : List Char) : tokenizeL (trimL l) = tokenizeL l := by
  unfold tokenizeL trimL
  have hdecomp : l.dropWhile isWsChar =
      ((l.dropWhile isWsChar).reverse.dropWhile isWsChar).reverse ++
        ((l.dropWhile isWsChar).reverse.takeWhile isWsChar).reverse := by
    have h0 : (l.dropWhile isWsChar).reverse.takeWhile isWsChar ++
        (l.dropWhile isWsChar).reverse.dropWhile isWsChar = (l.dropWhile isWsChar).reverse :=
      List.takeWhile_append_dropWhile isWsChar (l.dropWhile isWsChar).reverse
    have h1 := congrArg List.reverse h0
    rw [List.reverse_append] at h1
    simpa using h1.symm
  have hws : ∀ c ∈ ((l.dropWhile isWsChar).reverse.takeWhile isWsChar).reverse,
      isWsChar c = true := by
    intro c hc
    rw [List.mem_reverse] at hc
    exact List.mem_takeWhile_imp hc
  calc tokAux [] ((l.dropWhile isWsChar).reverse.dropWhile isWsChar).reverse
      = tokAux [] (((l.dropWhile isWsChar).reverse.dropWhile isWsChar).reverse ++
          ((l.dropWhile isWsChar).reverse.takeWhile isWsChar).reverse) :=
        (tokAux_append_allws _ _ hws []).symm
    _ = tokAux [] (l.dropWhile isWsChar) := by rw [← hdecomp]
    _ = tokAux [] l := tokAux_dropWhile_ws l

theorem tokAux_nonws (w : List Char) (hw : ∀ c ∈ w, isWsChar c = false) : ∀ cur : List Char,
    tokAux cur w = if cur.reverse ++ w = [] then [] else [cur.reverse ++ w] := by
  induction w with
  | nil => intro cur; by_cases hcur : cur = [] <;> simp [tokAux, hcur]
  | cons c r ih =>
    intro cur
    have hc : isWsChar c = false := hw c (by simp)
    have ih2 := ih (fun x hx => hw x (List.mem_cons_of_mem c hx)) (c :: cur)
    simp only [tokAux, hc, Bool.false_eq_true, if_false]
    rw [ih2]
    simp [List.append_assoc]

theorem tokAux_append_token (w : List Char) (hw : ∀ c ∈ w, isWsChar c = false) (hwne : w ≠ []) :
    ∀ (l cur : List Char), tokAux cur (l ++ ' ' :: w) = tokAux cur l ++ [w]
  | [], cur => by
    have hsp : isWsChar ' ' = true := by decide
    have hnw := tokAux_nonws w hw []
    by_cases hcur : cur = [] <;> simp [tokAux, hsp, hcur, hnw, hwne]
  | c :: l, cur => by
    have ih := tokAux_append_token w hw hwne l
    by_cases hc : isWsChar c = true
    · by_cases hcur : cur = [] <;> simp [tokAux, hc, hcur, ih]
    · simp [tokAux, hc, ih]

theorem tokens_pad (v : String) :
    classTokens (trimS (" " ++ v ++ " " ++ "wikitable" ++ " ")) =
      classTokens v ++ ["wikitable"] := by
  have hw : ∀ c ∈ "wikitable".data, isWsChar c = false := by decide
  have hwne : "wikitable".data ≠ [] := by decide
  unfold classTokens trimS
  rw [tokenizeL_trimL]
  have hdata : (" " ++ v ++ " " ++ "wikitable" ++ " ").data
      = ' ' :: ((v.data ++ ' ' :: "wikitable".data) ++ [' ']) := by
    simp [String.data_append]
  rw [hdata]
  show (tokAux [] (' ' :: ((v.data ++ ' ' :: "wikitable".data) ++ [' ']))).map (fun l => (⟨l⟩ : String))
      = (tokenizeL v.data).map (fun l => (⟨l⟩ : String)) ++ ["wikitable"]
  have hstep1 : tokAux [] (' ' :: ((v.data ++ ' ' :: "wikitable".data) ++ [' '])) =
      tokAux [] ((v.data ++ ' ' :: "wikitable".data) ++ [' ']) := by
    have hsp : isWsChar ' ' = true := by decide
    simp [tokAux, hsp]
  have hstep2 : tokAux [] ((v.data ++ ' ' :: "wikitable".data) ++ [' ']) =
      tokAux [] (v.data ++ ' ' :: "wikitable".data) :=
    tokAux_append_allws _ [' '] (by decide) []
  have hstep3 : tokAux [] (v.data ++ ' ' :: "wikitable".data) =
      tokAux [] v.data ++ ["wikitable".data] :=
    tokAux_append_token "wikitable".data hw hwne v.data []
  rw [hstep1, hstep2, hstep3]
  simp [tokenizeL]

theorem classTokens_addClassA (a : List (String × String)) :
    ∃ u, getAttr (addClassA a "wikitable") "class" = some u ∧
      classTokens u = classTokens ((getAttr a "class").getD "") ++ ["wikitable"] := by
  unfold addClassA
  cases hcl : getAttr a "class" with
  | none =>
    refine ⟨"wikitable", ?_, ?_⟩
    · simp [getAttr_setAttr]
    · simp [hcl]
      decide
  | some v =>
    by_cases hv : v = ""
    · subst hv
      refine ⟨"wikitable", ?_, ?_⟩
      · simp [getAttr_setAttr]
      · simp
        decide
    · refine ⟨trimS (" " ++ v ++ " " ++ "wikitable" ++ " "), ?_, ?_⟩
      · simp [hv, getAttr_setAttr]
      · simpa using tokens_pad v

theorem hasClassA_dropAttrs (a : List (String × String)) (names : List String) (cl : String)
    (h : ¬ "class" ∈ names) :
    hasClassA (dropAttrs a names) cl = hasClassA a cl := by
  unfold hasClassA
  rw [getAttr_dropAttrs]
  simp [h]

theorem hasClassA_ensureWikitable (a : List (String × String)) :
    hasClassA (ensureWikitable a) "wikitable" = true := by
  by_cases hc : hasClassA a "wikitable" = true
  · unfold ensureWikitable
    rw [if_pos hc]
    exact hc
  · unfold ensureWikitable
    rw [if_neg hc]
    obtain ⟨u, hu, htok⟩ := classTokens_addClassA a
    unfold hasClassA
    rw [hu]
    show (classTokens u).contains "wikitable" = true
    rw [htok]
    simp [List.contains, List.elem_eq_mem]

theorem style_ensureWikitable (a : List (String × String)) (m : String) (hm : m ≠ "class") :
    getAttr (ensureWikitable a) m = getAttr a m := by
  unfold ensureWikitable addClassA
  by_cases hc : hasClassA a "wikitable" = true
  · simp [hc]
  · simp only [hc, if_neg, ite_false]
    cases hcl : getAttr a "class" with
    | none => simp [getAttr_setAttr, hm]
    | some v => by_cases hv : v = "" <;> simp [hv, getAttr_setAttr, hm]

mutual

/-- Claim-side normalization checker: every table carries the wikitable
class and none of the four layout attributes, and every strict descendant
of a table carries no `style` attribute. -/
def tabOkN (inTab : Bool) : Node → Bool
  | .text _ => true
  | .elem t a cs =>
    (if t = "table" then
       hasClassA a "wikitable" && (getAttr a "style").isNone && (getAttr a "border").isNone &&
         (getAttr a "cellpadding").isNone && (getAttr a "cellspacing").isNone
     else true) &&
    (if inTab then (getAttr a "style").isNone else true) &&
    tabOkF (inTab || t = "table") cs

def tabOkF (inTab : Bool) : List Node → Bool
  | [] => true
  | c :: cs => tabOkN inTab c && tabOkF inTab cs

end

mutual

theorem tabOkN_procTabN : ∀ (b : Bool) (n : Node), tabOkN b (procTabN b n) = true
  | b, .text s => rfl
  | b, .elem t a cs => by
    have ihf := tabOkF_procTabF (b || decide (t = "table")) cs
    by_cases hT : t = "table"
    · subst hT
      cases b with
      | true =>
        have ihf2 : tabOkF true (procTabF true cs) = true := by simpa using ihf
        have hst : getAttr (dropAttrs (dropAttrs (ensureWikitable a) tableAttrNames) ["style"])
            "style" = none := by
          rw [getAttr_dropAttrs]
          simp
        have hrest : ∀ m, m ∈ tableAttrNames →
            getAttr (dropAttrs (dropAttrs (ensureWikitable a) tableAttrNames) ["style"]) m
              = getAttr (dropAttrs (ensureWikitable a) tableAttrNames) m ∨
            getAttr (dropAttrs (dropAttrs (ensureWikitable a) tableAttrNames) ["style"]) m
              = none := fun m _ => by
          rw [getAttr_dropAttrs]
          by_cases hms : m ∈ (["style"] : List String)
          · exact Or.inr (if_pos hms)
          · exact Or.inl (if_neg hms)
        have hbd : getAttr (dropAttrs (dropAttrs (ensureWikitable a) tableAttrNames) ["style"])
            "border" = none := by
          rw [getAttr_dropAttrs, getAttr_dropAttrs]
          simp [tableAttrNames]
        have hcp : getAttr (dropAttrs (dropAttrs (ensureWikitable a) tableAttrNames) ["style"])
            "cellpadding" = none := by
          rw [getAttr_dropAttrs, getAttr_dropAttrs]
          simp [tableAttrNames]
        have hcs : getAttr (dropAttrs (dropAttrs (ensureWikitable a) tableAttrNames) ["style"])
            "cellspacing" = none := by
          rw [getAttr_dropAttrs, getAttr_dropAttrs]
          simp [tableAttrNames]
        have h2 : hasClassA (dropAttrs (dropAttrs (ensureWikitable a) tableAttrNames) ["style"])
            "wikitable" = true := by
          rw [hasClassA_dropAttrs _ _ _ (by decide), hasClassA_dropAttrs _ _ _ (by decide)]
          exact hasClassA_ensureWikitable a
        simp [procTabN, tabOkN, h2, hst, hbd, hcp, hcs, ihf2]
      | false =>
        have ihf2 : tabOkF true (procTabF true cs) = true := by simpa using ihf
        have hst : getAttr (dropAttrs (ensureWikitable a) tableAttrNames) "style" = none := by
          rw [getAttr_dropAttrs]
          simp [tableAttrNames]
        have hbd : getAttr (dropAttrs (ensureWikitable a) tableAttrNames) "border" = none := by
          rw [getAttr_dropAttrs]
          simp [tableAttrNames]
        have hcp : getAttr (dropAttrs (ensureWikitable a) tableAttrNames) "cellpadding" = none := by
          rw [getAttr_dropAttrs]
          simp [tableAttrNames]
        have hcs : getAttr (dropAttrs (ensureWikitable a) tableAttrNames) "cellspacing" = none := by
          rw [getAttr_dropAttrs]
          simp [tableAttrNames]
        have h2 : hasClassA (dropAttrs (ensureWikitable a) tableAttrNames) "wikitable" = true := by
          rw [hasClassA_dropAttrs _ _ _ (by decide)]
          exact hasClassA_ensureWikitable a
        simp [procTabN, tabOkN, h2, hst, hbd, hcp, hcs, ihf2]
    · cases b with
      | true =>
        have ihf2 : tabOkF true (procTabF true cs) = true := by simpa [hT] using ihf
        have h1 : getAttr (dropAttrs a ["style"]) "style" = none := by
          rw [getAttr_dropAttrs]
          simp
        simp [procTabN, tabOkN, hT, h1, ihf2]
      | false =>
        have ihf2 : tabOkF false (procTabF false cs) = true := by simpa [hT] using ihf
        simp [procTabN, tabOkN, hT, ihf2]

theorem tabOkF_procTabF : ∀ (b : Bool) (cs : List Node), tabOkF b (procTabF b cs) = true
  | b, [] => rfl
  | b, c :: cs => by
    simp [procTabF, tabOkF, tabOkN_procTabN b c, tabOkF_procTabF b cs]

end

/-- C5 (amended): after table normalization every table element carries the
wikitable class (added exactly once when absent; when already present the
class step leaves the attributes untouched, so the pass never duplicates
it), and `style`, `border`, `cellpadding` and `cellspacing` are absent from
every table element; of the four, only `style` is stripped from the
non-table descendants of a table, so `border`/`cellpadding`/`cellspacing`
may survive on them (see the counterexample). -/
theorem tables_normalized :
    (∀ cs : List Node, tabOkF false (processTables cs) = true) ∧
    (∀ a : List (String × String), hasClassA a "wikitable" = true → ensureWikitable a = a) ∧
    (∀ a : List (String × String), hasClassA a "wikitable" = false →
      (classTokens ((getAttr (ensureWikitable a) "class").getD "")).count "wikitable" = 1) := by
  refine ⟨?_, ?_, ?_⟩
  · intro cs
    exact tabOkF_procTabF false cs
  · intro a ha
    unfold ensureWikitable
    rw [if_pos ha]
  · intro a ha
    unfold ensureWikitable
    rw [if_neg (by simp [ha])]
    obtain ⟨u, hu, htok⟩ := classTokens_addClassA a
    rw [hu]
    show (classTokens u).count "wikitable" = 1
    rw [htok, List.count_append]
    have hzero : (classTokens ((getAttr a "class").getD "")).count "wikitable" = 0 := by
      rw [List.count_eq_zero]
      intro hmem
      cases hcl : getAttr a "class" with
      | none =>
        rw [hcl] at hmem
        revert hmem
        decide
      | some v =>
        rw [hcl] at hmem
        simp only [Option.getD] at hmem
        have hcont : hasClassA a "wikitable" = true := by
          unfold hasClassA
          rw [hcl]
          simp [List.contains, List.elem_eq_mem]
          exact hmem
        rw [hcont] at ha
        cases ha
    rw [hzero]
    decide

def c5tbl : Node :=
  .elem "table" [("border", "1"), ("style", "x")]
    [.elem "tr" [("border", "2")] [.elem "td" [("style", "y")] [.text "v"]]]

def c5single : List (String × String) := [("class", "wikitable")]

theorem tables_normalized_witness :
    tabOkF false (processTables [c5tbl]) = true ∧
    hasClassA c5single "wikitable" = true ∧
    ensureWikitable c5single = c5single ∧
    hasClassA [] "wikitable" = false ∧
    (classTokens ((getAttr (ensureWikitable []) "class").getD "")).count "wikitable" = 1 :=
  ⟨tables_normalized.1 [c5tbl], by decide, tables_normalized.2.1 c5single (by decide), by decide,
   tables_normalized.2.2 [] (by decide)⟩

/-- C5 counterexample: normalizing
`<table border=1 style=x><tr border=2><td style=y>v</td></tr></table>`
leaves `border="2"` on the `tr` — descendants only lose `style`
(`find('*').removeAttr('style')`), so the four attributes are not absent
from every descendant of the table as claimed. -/
theorem table_descendant_keeps_border :
    processTables [c5tbl] =
      [.elem "table" [("class", "wikitable")]
        [.elem "tr" [("border", "2")] [.elem "td" [] [.text "v"]]]] ∧
    findDescF (fun n => n.tagIs "table") (fun n => (n.attr "border").isSome) false
      (processTables [c5tbl]) ≠ [] :=
  ⟨by decide, by decide⟩

end MCWiki
